import Mathlib

/-!
The ADS block interface of madasng (`adsinterface.c`)

A shallow embedding of `adsinterface.c` and theorems about it.

Conventions of the embedding

* `int` values are `Int`; the arithmetic of the source is done exactly (the
  products of the source stay far below `2^31` for every batch buffer that can
  exist).  `uint64_t` timestamps are `Nat` reduced modulo `2^64` where the source
  adds to them.
* Memory reached through a pointer (`blocks`, `file_data`) is a map from byte
  offsets to byte values.  Multi-byte fields are stored little-endian.
* The file system and the driver are oracles: each call receives the answers the
  environment gives to the system calls the source issues.
* A result `none` stands for an execution the C standard leaves undefined (an
  index past the end of the static array `data_timestamps`, a `memcpy` with a
  negative length or out of the recording buffer) or for a loop that does not
  terminate.
* `msleep` and `syslog` have no effect on the modelled state and are left out.
-/

namespace Madasng

/-! ## Constants of `adsinterface.h` -/

/-- Modelled from the spec: `adsinterface.h` (the constants `ADS_BLOCKSIZE` and
`ADS_HEADER_MAGIC` and the declaration of `struct ads_block_header`) is not among
the sources.  The constants and the byte layout of the header fields `magic`,
`num_blocks` and `timestamps` are parameters of the development. -/
structure Config where
  ADS_BLOCKSIZE : Nat
  ADS_HEADER_MAGIC : Nat
  magic_off : Nat
  magic_size : Nat
  num_blocks_off : Nat
  num_blocks_size : Nat
  timestamps_off : Nat

/-- The macro `MAX_TIMESTAMPS`, `ADS_BLOCKSIZE / 8`. -/
def Config.MAX_TIMESTAMPS (cfg : Config) : Nat := cfg.ADS_BLOCKSIZE / 8

/-- The macro `SAMPLE_RATE_NS`. -/
def SAMPLE_RATE_NS : Nat := 32000

/-- The largest value of a C `int`. -/
def INT_MAX : Int := 2 ^ 31 - 1

/-- What any declaration of the constants and of `struct ads_block_header`
guarantees: a positive block size for which `ADS_BLOCKSIZE * 1000` is an `int`, a
`magic` field wide enough for the magic constant, a `num_blocks` field wide enough
for a non-negative `int`, the three fields laid out in the order `magic`,
`num_blocks`, `timestamps` without overlap, and room for one timestamp in block 0
(so that the `memcpy` of `ads_read` never copies between overlapping regions). -/
structure Config.WF (cfg : Config) : Prop where
  blocksize_pos : 0 < cfg.ADS_BLOCKSIZE
  blocksize_fits : cfg.ADS_BLOCKSIZE * 1000 < 2 ^ 31
  magic_fits : cfg.ADS_HEADER_MAGIC < 256 ^ cfg.magic_size
  count_fits : 2 ^ 31 ≤ 256 ^ cfg.num_blocks_size
  magic_first : cfg.magic_off + cfg.magic_size ≤ cfg.num_blocks_off
  count_second : cfg.num_blocks_off + cfg.num_blocks_size ≤ cfg.timestamps_off
  header_room : cfg.timestamps_off + 8 ≤ cfg.ADS_BLOCKSIZE

/-- Modelled from the spec: a header declaration in the shape the spec describes
(`magic`, `num_blocks`, then one 64-bit timestamp per block) with 4096-byte
blocks, used where a concrete configuration is needed. -/
def sampleConfig : Config where
  ADS_BLOCKSIZE := 4096
  ADS_HEADER_MAGIC := 0xADC0FFEE
  magic_off := 0
  magic_size := 4
  num_blocks_off := 4
  num_blocks_size := 4
  timestamps_off := 8

/-! ## Memory -/

/-- Bytes reachable from a pointer, by offset. -/
abbrev Mem := Nat → Nat

/-- The call `memcpy(dst + d, src + s, len)`. -/
def memcpy (dst : Mem) (d : Nat) (src : Mem) (s len : Nat) : Mem :=
  fun k => if d ≤ k ∧ k < d + len then src (s + (k - d)) else dst k

/-- Byte `j` of the little-endian representation of `v`. -/
def byteLE (v j : Nat) : Nat := v / 256 ^ j % 256

/-- Store of the `w`-byte field at offset `off`. -/
def storeLE (m : Mem) (off w v : Nat) : Mem :=
  fun k => if off ≤ k ∧ k < off + w then byteLE v (k - off) else m k

/-- Load of the `w`-byte field at offset `off`. -/
def loadLE (m : Mem) (off : Nat) : Nat → Nat
  | 0 => 0
  | w + 1 => m off + 256 * loadLE m (off + 1) w

/-- The bytes of an array of `uint64_t`. -/
def u64_bytes (a : Nat → Nat) : Mem := fun j => byteLE (a (j / 8)) (j % 8)

/-- The field `magic` of the header at the front of `blocks`. -/
def header_magic (cfg : Config) (blocks : Mem) : Nat :=
  loadLE blocks cfg.magic_off cfg.magic_size

/-- The field `num_blocks` of the header at the front of `blocks`. -/
def header_num_blocks (cfg : Config) (blocks : Mem) : Nat :=
  loadLE blocks cfg.num_blocks_off cfg.num_blocks_size

/-- The element `timestamps[i]` of the header at the front of `blocks`. -/
def header_timestamp (cfg : Config) (blocks : Mem) (i : Nat) : Nat :=
  loadLE blocks (cfg.timestamps_off + 8 * i) 8

/-! ## State of the file backend -/

/-- The heap buffer `file_data` points to. -/
structure Recording where
  size : Nat
  bytes : Mem

/-- The globals of the file backend.  A null pointer is `none`. -/
structure SimState where
  data_block_pos : Int
  data_num_blocks : Int
  data_timestamps : Nat → Nat
  data_last_timestamp : Nat
  file_data : Option Recording
  loaded_filename : Option String

/-- The state at program start: every global is zero. -/
def SimState.init : SimState where
  data_block_pos := 0
  data_num_blocks := 0
  data_timestamps := fun _ => 0
  data_last_timestamp := 0
  file_data := none
  loaded_filename := none

/-- The answers of the environment to the calls one `ads_init_file` makes:
`st_size` is what `stat` reports (`none` when it returns -1), `read_len` what
`read` returns on the descriptor `open` gave, `content` the bytes it stored. -/
structure FileOutcome where
  st_size : Option Int
  malloc_ok : Bool
  read_len : Int
  content : Mem
  strdup_ok : Bool

/-- The file-system calls of `ads_init_file`. -/
inductive FileOp where
  | stat
  | open
  | read
  | close
  deriving DecidableEq, Repr

/-- Return value, state and file-system calls of one `ads_init_file`. -/
structure InitResult where
  ret : Int
  state : SimState
  io : List FileOp

/-- The function `ads_file_loaded`. -/
def ads_file_loaded (s : SimState) (filename : String) : Int :=
  if s.loaded_filename = some filename
      ∧ s.data_num_blocks > 0
      ∧ s.data_block_pos < s.data_num_blocks then 1
  else 0

/-- The block `if (file_data) { ... }` of `ads_init_file`. -/
def discard_recording (s : SimState) : SimState :=
  if s.file_data.isSome then
    { s with file_data := none, loaded_filename := none,
             data_num_blocks := 0, data_block_pos := 0 }
  else s

/-- The function `ads_init_file`. -/
def ads_init_file (cfg : Config) (s : SimState) (env : FileOutcome)
    (filename : String) : InitResult :=
  if ads_file_loaded s filename ≠ 0 then ⟨0, s, []⟩
  else
    let s1 := discard_recording s
    match env.st_size with
    | none => ⟨-1, s1, [.stat]⟩
    | some st_size =>
      if st_size < cfg.ADS_BLOCKSIZE * 32 then ⟨-1, s1, [.stat]⟩
      else if st_size > cfg.ADS_BLOCKSIZE * 1000 then ⟨-1, s1, [.stat]⟩
      else if Int.tmod st_size cfg.ADS_BLOCKSIZE ≠ 0 then ⟨-1, s1, [.stat]⟩
      else if env.malloc_ok = false then
        ⟨-1, { s1 with file_data := none }, [.stat]⟩
      else if env.read_len ≠ st_size then
        ⟨-1, { s1 with file_data := none }, [.stat, .open, .read, .close]⟩
      else
        ⟨1, { s1 with
                file_data := some ⟨st_size.toNat, env.content⟩
                loaded_filename := if env.strdup_ok then some filename else none
                data_block_pos := 0
                data_num_blocks := Int.tdiv env.read_len cfg.ADS_BLOCKSIZE
                data_last_timestamp := 0
                data_timestamps := fun _ => 0 },
          [.stat, .open, .read, .close]⟩

/-! ## Reading from the recording -/

/-- One `memcpy` of the copy loop: destination offset in `blocks`, source offset
in the recording, length in bytes. -/
structure Copy where
  dst : Nat
  src : Nat
  len : Nat
  deriving DecidableEq, Repr

/-- The loop `while (copied < num_blocks) { ... }` of `ads_read_file`, one
iteration per unit of fuel.  It yields the final `data_block_pos`, the buffer and
the copies made. -/
def copy_loop (cfg : Config) (file_data : Option Recording) (data_num_blocks : Int)
    (num_blocks : Int) :
    Nat → Int → Int → Mem → List Copy → Option (Int × Mem × List Copy)
  | fuel, copied, data_block_pos, blocks, log =>
    if copied < num_blocks then
      match fuel with
      | 0 => none
      | fuel + 1 =>
        let count := data_num_blocks - data_block_pos
        let count := if count > num_blocks - copied then num_blocks - copied else count
        match file_data with
        | none => none
        | some r =>
          if count < 0 ∨ data_block_pos < 0
              ∨ data_block_pos * cfg.ADS_BLOCKSIZE + count * cfg.ADS_BLOCKSIZE > r.size then
            none
          else
            let c : Copy := ⟨((copied + 1) * cfg.ADS_BLOCKSIZE).toNat,
                             (data_block_pos * cfg.ADS_BLOCKSIZE).toNat,
                             (count * cfg.ADS_BLOCKSIZE).toNat⟩
            let blocks := memcpy blocks c.dst r.bytes c.src c.len
            let copied := copied + count
            let data_block_pos := data_block_pos + count
            let data_block_pos := if data_block_pos ≥ data_num_blocks then 0 else data_block_pos
            copy_loop cfg file_data data_num_blocks num_blocks fuel copied data_block_pos
              blocks (log ++ [c])
    else some (data_block_pos, blocks, log)

/-- The loop `for (int i = 0; i < num_blocks; i++) { ... }` of `ads_read_file`,
with `k` iterations left.  It yields `data_timestamps` and
`data_last_timestamp`. -/
def timestamp_loop (cfg : Config) :
    Nat → Nat → (Nat → Nat) → Nat → Option ((Nat → Nat) × Nat)
  | 0, _, data_timestamps, data_last_timestamp =>
    some (data_timestamps, data_last_timestamp)
  | k + 1, i, data_timestamps, data_last_timestamp =>
    if i < cfg.MAX_TIMESTAMPS then
      timestamp_loop cfg k (i + 1)
        (fun j => if j = i then data_last_timestamp else data_timestamps j)
        ((data_last_timestamp + SAMPLE_RATE_NS) % 2 ^ 64)
    else none

/-- The assignments `header->magic = ADS_HEADER_MAGIC` and
`header->num_blocks = num_blocks` on the header at the front of `blocks`. -/
def header_fields (cfg : Config) (blocks : Mem) (num_blocks : Int) : Mem :=
  let blocks := storeLE blocks cfg.magic_off cfg.magic_size cfg.ADS_HEADER_MAGIC
  storeLE blocks cfg.num_blocks_off cfg.num_blocks_size
    (num_blocks % 256 ^ cfg.num_blocks_size).toNat

/-- The header written at the front of `blocks`: `magic`, `num_blocks`, then
`memcpy(header->timestamps, src + s, num_blocks * sizeof(uint64_t))`, where `src`
holds the source bytes as they are after the two assignments. -/
def write_header (cfg : Config) (blocks : Mem) (num_blocks : Int) (src : Mem) (s : Nat) :
    Option Mem :=
  let blocks := header_fields cfg blocks num_blocks
  if num_blocks < 0 then none
  else some (memcpy blocks cfg.timestamps_off src s (num_blocks * 8).toNat)

/-- Return value, state, buffer, file-system calls and copies of one
`ads_read_file`. -/
structure ReadResult where
  ret : Int
  state : SimState
  blocks : Mem
  io : List FileOp
  copies : List Copy

/-- The function `ads_read_file`; a null `filename` is `none`. -/
def ads_read_file (cfg : Config) (s : SimState) (env : FileOutcome)
    (filename : Option String) (blocks : Mem) (num_blocks : Int) : Option ReadResult :=
  match filename with
  | none => some ⟨-1, s, blocks, [], []⟩
  | some filename =>
    if filename = "" then some ⟨-1, s, blocks, [], []⟩
    else
      let r := ads_init_file cfg s env filename
      if r.ret < 0 then some ⟨-1, r.state, blocks, r.io, []⟩
      else
        match copy_loop cfg r.state.file_data r.state.data_num_blocks num_blocks
            (num_blocks.toNat + 1) 0 r.state.data_block_pos blocks [] with
        | none => none
        | some (data_block_pos, blocks, log) =>
          match timestamp_loop cfg num_blocks.toNat 0 r.state.data_timestamps
              r.state.data_last_timestamp with
          | none => none
          | some (data_timestamps, data_last_timestamp) =>
            match write_header cfg blocks num_blocks (u64_bytes data_timestamps) 0 with
            | none => none
            | some blocks =>
              some ⟨num_blocks + 1,
                    { r.state with
                        data_block_pos := data_block_pos
                        data_timestamps := data_timestamps
                        data_last_timestamp := data_last_timestamp },
                    blocks, r.io, log⟩

/-! ## Reading from the driver -/

/-- What one `read` on the device returns: the length, and the bytes it stored
when the length is positive. -/
structure DriverRead where
  len : Int
  data : Mem

/-- One call `read(device_fd, blocks + dst, count)`. -/
structure ReadCall where
  dst : Nat
  count : Int
  deriving DecidableEq, Repr

/-- Return value, device handle, buffer, number of `ads_open_device` calls and
the driver reads of one `ads_read`. -/
structure LiveResult where
  ret : Int
  device_fd : Int
  blocks : Mem
  opens : Nat
  reads : List ReadCall

/-- The loop `while (retries < 2 && blocks_read < num_blocks) { ... }` of
`ads_read`, one iteration per unit of fuel; `log` holds the driver reads made so
far and `driver log.length` is the answer to the next one.  It yields the return
value of `ads_read`, the buffer and the reads. -/
def read_loop (cfg : Config) (driver : Nat → DriverRead) (num_blocks : Int) :
    Nat → Int → Int → List ReadCall → Mem → Option (Int × Mem × List ReadCall)
  | fuel, retries, blocks_read, log, blocks =>
    if retries < 2 ∧ blocks_read < num_blocks then
      match fuel with
      | 0 => none
      | fuel + 1 =>
        let expected_size : Int := num_blocks * cfg.ADS_BLOCKSIZE + num_blocks * 8
        let request_size : Int := (1 + num_blocks) * cfg.ADS_BLOCKSIZE
        let len := (driver log.length).len
        let blocks := memcpy blocks cfg.ADS_BLOCKSIZE (driver log.length).data 0 len.toNat
        let log := log ++ [⟨cfg.ADS_BLOCKSIZE, request_size⟩]
        if len = 0 then
          read_loop cfg driver num_blocks fuel (retries + 1) blocks_read log blocks
        else if len < 0 then some (len, blocks, log)
        else if len ≠ expected_size then some (-1, blocks, log)
        else
          match write_header cfg blocks num_blocks (header_fields cfg blocks num_blocks)
              (num_blocks * cfg.ADS_BLOCKSIZE).toNat with
          | none => none
          | some blocks =>
            read_loop cfg driver num_blocks fuel retries (num_blocks + 1) log blocks
    else some (blocks_read, blocks, log)

/-- The function `ads_read`; `open_result` is what `ads_open_device` returns when
it is called. -/
def ads_read (cfg : Config) (device_fd : Int) (open_result : Int)
    (driver : Nat → DriverRead) (blocks : Mem) (num_blocks : Int) : Option LiveResult :=
  let opens := if device_fd = 0 then 1 else 0
  let device_fd := if device_fd = 0 then open_result else device_fd
  if opens = 1 ∧ device_fd < 0 then some ⟨-1, 0, blocks, opens, []⟩
  else
    match read_loop cfg driver num_blocks 2 0 0 [] blocks with
    | none => none
    | some (ret, blocks, log) => some ⟨ret, device_fd, blocks, opens, log⟩


/-! ## Predicates on states -/

/-- A recording `r` of `T` blocks is in memory and the cursor is at block `p`. -/
def Ready (cfg : Config) (s : SimState) (r : Recording) (T p : Nat) : Prop :=
  s.file_data = some r ∧ s.data_num_blocks = T ∧ s.data_block_pos = p ∧ p < T
    ∧ r.size = T * cfg.ADS_BLOCKSIZE

/-- Nothing is loaded. -/
def Unloaded (s : SimState) : Prop :=
  s.file_data = none ∧ s.loaded_filename = none ∧ s.data_num_blocks = 0
    ∧ s.data_block_pos = 0

/-- The state invariant: nothing is loaded, or a recording of 32 to 1000 blocks is
in memory with the cursor inside it. -/
def Inv (cfg : Config) (s : SimState) : Prop :=
  Unloaded s ∨ ∃ r T p, Ready cfg s r T p ∧ 32 ≤ T ∧ T ≤ 1000

/-- The states a program reaches from start by calls of `ads_init_file` and
`ads_read_file`, whatever the environment answers. -/
inductive Reachable (cfg : Config) : SimState → Prop
  | start : Reachable cfg SimState.init
  | init_file (s : SimState) (env : FileOutcome) (filename : String) :
      Reachable cfg s → Reachable cfg (ads_init_file cfg s env filename).state
  | read_file (s : SimState) (env : FileOutcome) (filename : Option String) (blocks : Mem)
      (num_blocks : Int) (res : ReadResult) :
      Reachable cfg s → ads_read_file cfg s env filename blocks num_blocks = some res →
      Reachable cfg res.state

/-! ## Concrete inputs -/

/-- A buffer of zero bytes. -/
def zeroMem : Mem := fun _ => 0

/-- The bytes of a recording: the byte at offset `k` is `k % 251`. -/
def sampleBytes : Mem := fun k => k % 251

/-- The answers of the environment for a readable recording of 40 blocks of 4096
bytes. -/
def sampleFile : FileOutcome where
  st_size := some 163840
  malloc_ok := true
  read_len := 163840
  content := sampleBytes
  strdup_ok := true

/-- The answers of the environment for a file that does not exist. -/
def missingFile : FileOutcome where
  st_size := none
  malloc_ok := true
  read_len := -1
  content := zeroMem
  strdup_ok := true

/-- The state after `ads_init_file` has loaded `sampleFile` as `"rec.bin"` at
program start. -/
def sampleLoaded : SimState :=
  (ads_init_file sampleConfig SimState.init sampleFile "rec.bin").state

/-! ## Sequences of reads -/

/-- One call of `ads_read_file` in a sequence: the answers of the environment, the
caller's buffer and the block count. -/
structure ReadRequest where
  env : FileOutcome
  blocks : Mem
  num_blocks : Nat

/-- Successive calls of `ads_read_file` with the same `filename`, each on the
state the previous one left; the results in order. -/
def read_seq (cfg : Config) (filename : String) :
    SimState → List ReadRequest → Option (List ReadResult)
  | _, [] => some []
  | s, c :: rest =>
    match ads_read_file cfg s c.env (some filename) c.blocks c.num_blocks with
    | none => none
    | some res =>
      match read_seq cfg filename res.state rest with
      | none => none
      | some results => some (res :: results)

/-- The number of blocks the first `j` calls of a sequence ask for. -/
def blocks_before (calls : List ReadRequest) (j : Nat) : Nat :=
  ((calls.take j).map (fun c => c.num_blocks)).sum

/-! ## Start and stop -/

/-- One call `write(device_fd, token, count)`. -/
structure WriteCall where
  token : String
  count : Nat
  deriving DecidableEq, Repr

/-- Return value, device handle, number of `ads_open_device` calls and the writes
of one `ads_start` or `ads_stop`. -/
structure CtlResult where
  ret : Int
  device_fd : Int
  opens : Nat
  writes : List WriteCall

/-- The function `ads_start`; `open_result` is what `ads_open_device` returns when
it is called, `write_result` what `write` returns. -/
def ads_start (device_fd open_result write_result : Int) : CtlResult :=
  let opens := if device_fd = 0 then 1 else 0
  let device_fd := if device_fd = 0 then open_result else device_fd
  if opens = 1 ∧ device_fd < 0 then ⟨-1, 0, opens, []⟩
  else ⟨if 5 = write_result then 1 else 0, device_fd, opens, [⟨"start", 5⟩]⟩

/-- The function `ads_stop`; `open_result` is what `ads_open_device` returns when
it is called, `write_result` what `write` returns. -/
def ads_stop (device_fd open_result write_result : Int) : CtlResult :=
  let opens := if device_fd = 0 then 1 else 0
  let device_fd := if device_fd = 0 then open_result else device_fd
  if opens = 1 ∧ device_fd < 0 then ⟨-1, 0, opens, []⟩
  else ⟨if 4 = write_result then 1 else 0, device_fd, opens, [⟨"stop", 4⟩]⟩

/-! ## Sequences of calls on the device -/

/-- One call on the device with the answers of the environment: what
`ads_open_device` returns if it is called, and what the `write` or the driver
reads return. -/
inductive DevCall where
  | start (open_result write_result : Int)
  | stop (open_result write_result : Int)
  | read (open_result : Int) (driver : Nat → DriverRead) (blocks : Mem) (num_blocks : Int)

/-- What one call on the device did: the handle before and after, the return
value, the number of `ads_open_device` calls and the number of writes and driver
reads. -/
structure DevStep where
  fd_before : Int
  ret : Int
  fd_after : Int
  opens : Nat
  transfers : Nat
  deriving DecidableEq, Repr

/-- One call of `ads_start`, `ads_stop` or `ads_read` on the handle `device_fd`. -/
def dev_call (cfg : Config) (device_fd : Int) : DevCall → Option DevStep
  | .start o w =>
    let r := ads_start device_fd o w
    some ⟨device_fd, r.ret, r.device_fd, r.opens, r.writes.length⟩
  | .stop o w =>
    let r := ads_stop device_fd o w
    some ⟨device_fd, r.ret, r.device_fd, r.opens, r.writes.length⟩
  | .read o driver blocks n =>
    match ads_read cfg device_fd o driver blocks n with
    | none => none
    | some r => some ⟨device_fd, r.ret, r.device_fd, r.opens, r.reads.length⟩

/-- Successive calls on the device, each on the handle the previous one left. -/
def dev_seq (cfg : Config) : Int → List DevCall → Option (List DevStep)
  | _, [] => some []
  | device_fd, c :: rest =>
    match dev_call cfg device_fd c with
    | none => none
    | some st =>
      match dev_seq cfg st.fd_after rest with
      | none => none
      | some steps => some (st :: steps)

/-- The answer `open_result` a call carries. -/
def DevCall.open_result : DevCall → Int
  | .start o _ => o
  | .stop o _ => o
  | .read o _ _ _ => o

/-- A raw driver stream for one block of 4096 bytes: the data block holds the byte
170 throughout, the trailing timestamp the byte 17 throughout. -/
def rawStream : Mem := fun k => if k < 4096 then 170 else 17

/-- A driver that returns the 4104 bytes of `rawStream` at every read. -/
def rawDriver : Nat → DriverRead := fun _ => ⟨4104, rawStream⟩

/-! ## Memory lemmas -/

theorem byteLE_succ (v j : Nat) : byteLE v (j + 1) = byteLE (v / 256) j := by
  unfold byteLE
  rw [pow_succ, Nat.mul_comm, Nat.div_div_eq_div_mul]

theorem byteLE_mod (v j : Nat) (hj : j < 8) : byteLE (v % 2 ^ 64) j = byteLE v j := by
  unfold byteLE
  have e : (2 : Nat) ^ 64 = 256 ^ j * 256 ^ (8 - j) := by
    rw [← pow_add]
    have : j + (8 - j) = 8 := by omega
    rw [this]
    norm_num
  have hd : 256 ∣ 256 ^ (8 - j) := dvd_pow_self 256 (by omega)
  rw [e, Nat.mod_mul_right_div_self, Nat.mod_mod_of_dvd _ hd]

theorem loadLE_of_bytes (m : Mem) : ∀ (w off v : Nat),
    (∀ j, j < w → m (off + j) = byteLE v j) → loadLE m off w = v % 256 ^ w := by
  intro w
  induction w with
  | zero => intro off v _; simp [loadLE, Nat.mod_one]
  | succ w ih =>
    intro off v h
    have h0 : m off = v % 256 := by
      have := h 0 (Nat.succ_pos w)
      simpa [byteLE] using this
    have h1 : loadLE m (off + 1) w = v / 256 % 256 ^ w := by
      apply ih
      intro j hj
      have := h (j + 1) (Nat.succ_lt_succ hj)
      rw [byteLE_succ] at this
      rw [← this]
      congr 1
      omega
    rw [loadLE, h0, h1, pow_succ, Nat.mul_comm (256 ^ w) 256, Nat.mod_mul]

theorem loadLE_congr (m m' : Mem) : ∀ (w off : Nat),
    (∀ j, j < w → m (off + j) = m' (off + j)) → loadLE m off w = loadLE m' off w := by
  intro w
  induction w with
  | zero => intro off _; rfl
  | succ w ih =>
    intro off h
    have h0 : m off = m' off := by simpa using h 0 (Nat.succ_pos w)
    have h1 : loadLE m (off + 1) w = loadLE m' (off + 1) w := by
      apply ih
      intro j hj
      have := h (j + 1) (Nat.succ_lt_succ hj)
      have e : off + 1 + j = off + (j + 1) := by omega
      rw [e]; exact this
    rw [loadLE, loadLE, h0, h1]

theorem loadLE_storeLE (m : Mem) (off w v : Nat) :
    loadLE (storeLE m off w v) off w = v % 256 ^ w := by
  apply loadLE_of_bytes
  intro j hj
  simp [storeLE, hj]

theorem storeLE_outside (m : Mem) (off w v k : Nat) (h : k < off ∨ off + w ≤ k) :
    storeLE m off w v k = m k := by
  unfold storeLE
  rw [if_neg]
  omega

theorem memcpy_outside (dst : Mem) (d : Nat) (src : Mem) (s len k : Nat)
    (h : k < d ∨ d + len ≤ k) : memcpy dst d src s len k = dst k := by
  unfold memcpy
  rw [if_neg]
  omega

theorem memcpy_inside (dst : Mem) (d : Nat) (src : Mem) (s len k : Nat)
    (h : k < len) : memcpy dst d src s len (d + k) = src (s + k) := by
  unfold memcpy
  rw [if_pos (by omega)]
  congr 1
  omega


/-! ## The copy loop -/

theorem copy_loop_done (cfg : Config) (fd : Option Recording) (T n : Int) (fuel : Nat)
    (copied pos : Int) (blocks : Mem) (log : List Copy) (h : ¬ copied < n) :
    copy_loop cfg fd T n fuel copied pos blocks log = some (pos, blocks, log) := by
  unfold copy_loop
  rw [if_neg h]

theorem copy_loop_step (cfg : Config) (r : Recording) (T n fuel c p : Nat) (blocks : Mem)
    (log : List Copy) (hc : c < n) (hp : p < T)
    (hsize : T * cfg.ADS_BLOCKSIZE ≤ r.size) :
    copy_loop cfg (some r) T n (fuel + 1) c p blocks log =
      copy_loop cfg (some r) T n fuel ((c + min (T - p) (n - c) : Nat) : Int)
        (((p + min (T - p) (n - c)) % T : Nat) : Int)
        (memcpy blocks ((c + 1) * cfg.ADS_BLOCKSIZE) r.bytes (p * cfg.ADS_BLOCKSIZE)
          (min (T - p) (n - c) * cfg.ADS_BLOCKSIZE))
        (log ++ [⟨(c + 1) * cfg.ADS_BLOCKSIZE, p * cfg.ADS_BLOCKSIZE,
                  min (T - p) (n - c) * cfg.ADS_BLOCKSIZE⟩]) := by
  rw [copy_loop]
  have hcn : (c : Int) < n := by exact_mod_cast hc
  rw [if_pos hcn]
  simp only []
  have hcount : (if (T : Int) - p > (n : Int) - c then (n : Int) - c else (T : Int) - p)
      = ((min (T - p) (n - c) : Nat) : Int) := by
    split_ifs with h <;> omega
  rw [hcount]
  have hle : min (T - p) (n - c) * cfg.ADS_BLOCKSIZE + p * cfg.ADS_BLOCKSIZE
      ≤ T * cfg.ADS_BLOCKSIZE := by
    rw [← Nat.add_mul]
    apply Nat.mul_le_mul_right
    omega
  have hchk : ¬ (((min (T - p) (n - c) : Nat) : Int) < 0 ∨ (p : Int) < 0 ∨
      (p : Int) * (cfg.ADS_BLOCKSIZE : Int)
        + ((min (T - p) (n - c) : Nat) : Int) * (cfg.ADS_BLOCKSIZE : Int) > (r.size : Int)) := by
    push_neg
    refine ⟨by positivity, by positivity, ?_⟩
    have : p * cfg.ADS_BLOCKSIZE + min (T - p) (n - c) * cfg.ADS_BLOCKSIZE ≤ r.size := by omega
    exact_mod_cast this
  rw [if_neg hchk]
  have e1 : (((c : Int) + 1) * (cfg.ADS_BLOCKSIZE : Int)).toNat = (c + 1) * cfg.ADS_BLOCKSIZE := by
    have : ((c : Int) + 1) * (cfg.ADS_BLOCKSIZE : Int) = (((c + 1) * cfg.ADS_BLOCKSIZE : Nat) : Int) := by
      push_cast; ring
    rw [this, Int.toNat_natCast]
  have e2 : ((p : Int) * (cfg.ADS_BLOCKSIZE : Int)).toNat = p * cfg.ADS_BLOCKSIZE := by
    have : (p : Int) * (cfg.ADS_BLOCKSIZE : Int) = ((p * cfg.ADS_BLOCKSIZE : Nat) : Int) := by
      push_cast; ring
    rw [this, Int.toNat_natCast]
  have e3 : (((min (T - p) (n - c) : Nat) : Int) * (cfg.ADS_BLOCKSIZE : Int)).toNat
      = min (T - p) (n - c) * cfg.ADS_BLOCKSIZE := by
    have : ((min (T - p) (n - c) : Nat) : Int) * (cfg.ADS_BLOCKSIZE : Int)
        = ((min (T - p) (n - c) * cfg.ADS_BLOCKSIZE : Nat) : Int) := by
      push_cast; ring
    rw [this, Int.toNat_natCast]
  rw [e1, e2, e3]
  have e4 : (if (p : Int) + ((min (T - p) (n - c) : Nat) : Int) ≥ (T : Int) then (0 : Int)
      else (p : Int) + ((min (T - p) (n - c) : Nat) : Int))
      = (((p + min (T - p) (n - c)) % T : Nat) : Int) := by
    split_ifs with h
    · have : p + min (T - p) (n - c) = T := by omega
      rw [this, Nat.mod_self]; rfl
    · have : p + min (T - p) (n - c) < T := by omega
      rw [Nat.mod_eq_of_lt this]; push_cast; rfl
  rw [e4]
  push_cast
  rfl


theorem copy_loop_spec (cfg : Config) (r : Recording) (T n : Nat)
    (hsize : T * cfg.ADS_BLOCKSIZE ≤ r.size) :
    ∀ (fuel c p : Nat) (blocks : Mem) (log : List Copy), c ≤ n → p < T → n - c ≤ fuel →
      ∃ blocks' log',
        copy_loop cfg (some r) T n fuel c p blocks log
          = some ((((p + (n - c)) % T : Nat) : Int), blocks', log') ∧
        (∀ i j, c ≤ i → i < n → j < cfg.ADS_BLOCKSIZE →
          blocks' ((i + 1) * cfg.ADS_BLOCKSIZE + j)
            = r.bytes ((p + (i - c)) % T * cfg.ADS_BLOCKSIZE + j)) ∧
        (∀ k, k < (c + 1) * cfg.ADS_BLOCKSIZE ∨ (n + 1) * cfg.ADS_BLOCKSIZE ≤ k →
          blocks' k = blocks k) := by
  intro fuel
  induction fuel with
  | zero =>
    intro c p blocks log hc hp hf
    have hcn : c = n := by omega
    subst hcn
    refine ⟨blocks, log, ?_, ?_, ?_⟩
    · rw [copy_loop_done _ _ _ _ _ _ _ _ _ (by simp)]
      simp [Nat.mod_eq_of_lt hp]
    · intro i j h1 h2; omega
    · intro k _; rfl
  | succ fuel ih =>
    intro c p blocks log hc hp hf
    by_cases hcn : c < n
    · rw [copy_loop_step cfg r T n fuel c p blocks log hcn hp hsize]
      have hm1 : 1 ≤ min (T - p) (n - c) := by omega
      have hm2 : min (T - p) (n - c) ≤ T - p := Nat.min_le_left _ _
      have hm3 : min (T - p) (n - c) ≤ n - c := Nat.min_le_right _ _
      generalize min (T - p) (n - c) = m at hm1 hm2 hm3
      have hT : 0 < T := by omega
      obtain ⟨blocks', log', h1, h2, h3⟩ :=
        ih (c + m) ((p + m) % T)
          (memcpy blocks ((c + 1) * cfg.ADS_BLOCKSIZE) r.bytes (p * cfg.ADS_BLOCKSIZE)
            (m * cfg.ADS_BLOCKSIZE))
          (log ++ [⟨(c + 1) * cfg.ADS_BLOCKSIZE, p * cfg.ADS_BLOCKSIZE,
                    m * cfg.ADS_BLOCKSIZE⟩])
          (by omega) (Nat.mod_lt _ hT) (by omega)
      refine ⟨blocks', log', ?_, ?_, ?_⟩
      · rw [h1]
        have : ((p + m) % T + (n - (c + m))) % T = (p + (n - c)) % T := by
          rw [Nat.mod_add_mod]
          congr 1
          omega
        rw [this]
      · intro i j hi1 hi2 hj
        by_cases him : i < c + m
        · have hk : (i + 1) * cfg.ADS_BLOCKSIZE + j < (c + m + 1) * cfg.ADS_BLOCKSIZE := by
            have : (i + 2) * cfg.ADS_BLOCKSIZE ≤ (c + m + 1) * cfg.ADS_BLOCKSIZE :=
              Nat.mul_le_mul_right _ (by omega)
            have e : (i + 2) * cfg.ADS_BLOCKSIZE
                = (i + 1) * cfg.ADS_BLOCKSIZE + cfg.ADS_BLOCKSIZE := by ring
            omega
          rw [h3 _ (Or.inl hk)]
          have e1 : (i + 1) * cfg.ADS_BLOCKSIZE + j
              = (c + 1) * cfg.ADS_BLOCKSIZE + ((i - c) * cfg.ADS_BLOCKSIZE + j) := by
            have : i + 1 = (c + 1) + (i - c) := by omega
            rw [this, Nat.add_mul, Nat.add_assoc]
          have hlt : (i - c) * cfg.ADS_BLOCKSIZE + j < m * cfg.ADS_BLOCKSIZE := by
            have : (i - c + 1) * cfg.ADS_BLOCKSIZE ≤ m * cfg.ADS_BLOCKSIZE :=
              Nat.mul_le_mul_right _ (by omega)
            have e : (i - c + 1) * cfg.ADS_BLOCKSIZE
                = (i - c) * cfg.ADS_BLOCKSIZE + cfg.ADS_BLOCKSIZE := by ring
            omega
          rw [e1, memcpy_inside _ _ _ _ _ _ hlt]
          have hmod : (p + (i - c)) % T = p + (i - c) := Nat.mod_eq_of_lt (by omega)
          rw [hmod]
          congr 1
          ring
        · rw [h2 i j (by omega) hi2 hj]
          have : ((p + m) % T + (i - (c + m))) % T = (p + (i - c)) % T := by
            rw [Nat.mod_add_mod]
            congr 1
            omega
          rw [this]
      · intro k hk
        have hk' : k < (c + m + 1) * cfg.ADS_BLOCKSIZE ∨ (n + 1) * cfg.ADS_BLOCKSIZE ≤ k := by
          rcases hk with hk | hk
          · left
            have : (c + 1) * cfg.ADS_BLOCKSIZE ≤ (c + m + 1) * cfg.ADS_BLOCKSIZE :=
              Nat.mul_le_mul_right _ (by omega)
            omega
          · right; exact hk
        rw [h3 k hk']
        apply memcpy_outside
        rcases hk with hk | hk
        · left; exact hk
        · right
          have : (c + 1 + m) * cfg.ADS_BLOCKSIZE ≤ (n + 1) * cfg.ADS_BLOCKSIZE :=
            Nat.mul_le_mul_right _ (by omega)
          have e : (c + 1 + m) * cfg.ADS_BLOCKSIZE
              = (c + 1) * cfg.ADS_BLOCKSIZE + m * cfg.ADS_BLOCKSIZE := by ring
          omega
    · have hcn : c = n := by omega
      subst hcn
      refine ⟨blocks, log, ?_, ?_, ?_⟩
      · rw [copy_loop_done _ _ _ _ _ _ _ _ _ (by simp)]
        simp [Nat.mod_eq_of_lt hp]
      · intro i j h1 h2; omega
      · intro k _; rfl


/-! ## The timestamp loop and the header -/

theorem timestamp_loop_spec (cfg : Config) : ∀ (k i : Nat) (ts : Nat → Nat) (L : Nat),
    i + k ≤ cfg.MAX_TIMESTAMPS →
      ∃ ts', timestamp_loop cfg k i ts L
          = some (ts', if k = 0 then L else (L + k * SAMPLE_RATE_NS) % 2 ^ 64) ∧
        (∀ j, i ≤ j → j < i + k →
          ts' j % 2 ^ 64 = (L + (j - i) * SAMPLE_RATE_NS) % 2 ^ 64) ∧
        (∀ j, j < i ∨ i + k ≤ j → ts' j = ts j) := by
  intro k
  induction k with
  | zero =>
    intro i ts L _
    exact ⟨ts, by simp [timestamp_loop], fun j h1 h2 => by omega, fun j _ => rfl⟩
  | succ k ih =>
    intro i ts L h
    have hi : i < cfg.MAX_TIMESTAMPS := by omega
    obtain ⟨ts', h1, h2, h3⟩ := ih (i + 1)
      (fun j => if j = i then L else ts j) ((L + SAMPLE_RATE_NS) % 2 ^ 64) (by omega)
    refine ⟨ts', ?_, ?_, ?_⟩
    · rw [timestamp_loop, if_pos hi, h1]
      congr 2
      rw [if_neg (Nat.succ_ne_zero k)]
      split_ifs with hk
      · subst hk; simp
      · rw [Nat.mod_add_mod]
        congr 1
        ring
    · intro j hj1 hj2
      by_cases hji : j = i
      · subst hji
        rw [h3 j (Or.inl (Nat.lt_succ_self j))]
        simp
      · rw [h2 j (by omega) (by omega), Nat.mod_add_mod]
        congr 1
        have : j - i = (j - (i + 1)) + 1 := by omega
        rw [this, Nat.add_mul]
        ring
    · intro j hj
      rw [h3 j (by omega)]
      have : j ≠ i := by omega
      simp [this]

theorem timestamp_loop_none (cfg : Config) : ∀ (k i : Nat) (ts : Nat → Nat) (L : Nat),
    cfg.MAX_TIMESTAMPS < i + k → 0 < k → timestamp_loop cfg k i ts L = none := by
  intro k
  induction k with
  | zero => intro i ts L _ h; omega
  | succ k ih =>
    intro i ts L h _
    rw [timestamp_loop]
    split_ifs with hi
    · apply ih
      · omega
      · omega
    · rfl

theorem write_header_spec (cfg : Config) (hwf : cfg.WF) (blocks : Mem) (n : Nat)
    (hn : (n : Int) ≤ INT_MAX) (src : Mem) (s : Nat) :
    ∃ b, write_header cfg blocks n src s = some b ∧
      header_magic cfg b = cfg.ADS_HEADER_MAGIC ∧
      header_num_blocks cfg b = n ∧
      (∀ k, k < 8 * n → b (cfg.timestamps_off + k) = src (s + k)) ∧
      (∀ k, cfg.timestamps_off + 8 * n ≤ k → b k = blocks k) := by
  have e8 : ((n : Int) * 8).toNat = 8 * n := by
    have : (n : Int) * 8 = ((8 * n : Nat) : Int) := by push_cast; ring
    rw [this, Int.toNat_natCast]
  have hlt : n < 256 ^ cfg.num_blocks_size := by
    have h1 := hwf.count_fits
    have h2 : (n : Int) < 2 ^ 31 := by unfold INT_MAX at hn; omega
    have h3 : n < 2 ^ 31 := by exact_mod_cast h2
    omega
  have ecount : ((n : Int) % 256 ^ cfg.num_blocks_size).toNat = n := by
    have : ((n : Int) % 256 ^ cfg.num_blocks_size) = ((n % 256 ^ cfg.num_blocks_size : Nat) : Int) := by
      push_cast; rfl
    rw [this, Int.toNat_natCast, Nat.mod_eq_of_lt hlt]
  have h1 := hwf.magic_first
  have h2 := hwf.count_second
  have hw : write_header cfg blocks n src s = some (memcpy
      (storeLE (storeLE blocks cfg.magic_off cfg.magic_size cfg.ADS_HEADER_MAGIC)
        cfg.num_blocks_off cfg.num_blocks_size n) cfg.timestamps_off src s (8 * n)) := by
    unfold write_header header_fields
    simp only []
    rw [if_neg (by omega), e8, ecount]
  refine ⟨_, hw, ?_, ?_, ?_, ?_⟩
  · unfold header_magic
    rw [loadLE_congr _ (storeLE blocks cfg.magic_off cfg.magic_size cfg.ADS_HEADER_MAGIC)]
    · rw [loadLE_storeLE, Nat.mod_eq_of_lt hwf.magic_fits]
    · intro j hj
      rw [memcpy_outside _ _ _ _ _ _ (by omega), storeLE_outside _ _ _ _ _ (by omega)]
  · unfold header_num_blocks
    rw [loadLE_congr _ (storeLE (storeLE blocks cfg.magic_off cfg.magic_size cfg.ADS_HEADER_MAGIC)
      cfg.num_blocks_off cfg.num_blocks_size n)]
    · rw [loadLE_storeLE, Nat.mod_eq_of_lt hlt]
    · intro j hj
      rw [memcpy_outside _ _ _ _ _ _ (by omega)]
  · intro k hk
    rw [memcpy_inside _ _ _ _ _ _ hk]
  · intro k hk
    rw [memcpy_outside _ _ _ _ _ _ (by omega), storeLE_outside _ _ _ _ _ (by omega),
      storeLE_outside _ _ _ _ _ (by omega)]

theorem write_header_neg (cfg : Config) (blocks : Mem) (n : Int) (hn : n < 0) (src : Mem)
    (s : Nat) : write_header cfg blocks n src s = none := by
  unfold write_header
  simp only []
  rw [if_pos hn]

theorem loadLE_u64_bytes (b : Mem) (a : Nat → Nat) (off i : Nat)
    (h : ∀ k, k < 8 * (i + 1) → b (off + k) = u64_bytes a k) :
    loadLE b (off + 8 * i) 8 = a i % 2 ^ 64 := by
  have e : (2 : Nat) ^ 64 = 256 ^ 8 := by norm_num
  rw [e]
  apply loadLE_of_bytes
  intro j hj
  have := h (8 * i + j) (by omega)
  rw [← Nat.add_assoc] at this
  rw [this]
  unfold u64_bytes
  have e1 : (8 * i + j) / 8 = i := by omega
  have e2 : (8 * i + j) % 8 = j := by omega
  rw [e1, e2]


/-! ## Loading -/

theorem discard_recording_file_data (s : SimState) :
    (discard_recording s).file_data = none := by
  unfold discard_recording
  split_ifs with h
  · rfl
  · cases hfd : s.file_data with
    | none => rfl
    | some r => rw [hfd] at h; simp at h

theorem discard_recording_idem (s : SimState) :
    { discard_recording s with file_data := none } = discard_recording s := by
  have h := discard_recording_file_data s
  cases hs : discard_recording s
  rw [hs] at h
  simp only [] at h
  simp [h]

theorem ads_init_file_cases (cfg : Config) (s : SimState) (env : FileOutcome)
    (filename : String) :
    (ads_file_loaded s filename ≠ 0 ∧ ads_init_file cfg s env filename = ⟨0, s, []⟩)
    ∨ (ads_file_loaded s filename = 0
        ∧ (ads_init_file cfg s env filename).ret = -1
        ∧ (ads_init_file cfg s env filename).state = discard_recording s
        ∧ ((ads_init_file cfg s env filename).io = [.stat]
            ∨ (ads_init_file cfg s env filename).io = [.stat, .open, .read, .close]))
    ∨ (ads_file_loaded s filename = 0
        ∧ ∃ st_size, env.st_size = some st_size
          ∧ (cfg.ADS_BLOCKSIZE : Int) * 32 ≤ st_size
          ∧ st_size ≤ (cfg.ADS_BLOCKSIZE : Int) * 1000
          ∧ Int.tmod st_size cfg.ADS_BLOCKSIZE = 0
          ∧ env.malloc_ok = true
          ∧ env.read_len = st_size
          ∧ ads_init_file cfg s env filename =
              ⟨1, { discard_recording s with
                      file_data := some ⟨st_size.toNat, env.content⟩
                      loaded_filename := if env.strdup_ok then some filename else none
                      data_block_pos := 0
                      data_num_blocks := Int.tdiv st_size cfg.ADS_BLOCKSIZE
                      data_last_timestamp := 0
                      data_timestamps := fun _ => 0 },
                [.stat, .open, .read, .close]⟩) := by
  by_cases hl : ads_file_loaded s filename ≠ 0
  · left
    exact ⟨hl, by unfold ads_init_file; rw [if_pos hl]⟩
  · right
    have hl0 : ads_file_loaded s filename = 0 := not_not.mp hl
    unfold ads_init_file
    rw [if_neg hl]
    cases hst : env.st_size with
    | none => left; simp [hl0]
    | some st_size =>
      simp only []
      by_cases h1 : st_size < (cfg.ADS_BLOCKSIZE : Int) * 32
      · left; simp [hl0, h1]
      · by_cases h2 : st_size > (cfg.ADS_BLOCKSIZE : Int) * 1000
        · left; simp [hl0, h1, h2]
        · by_cases h3 : Int.tmod st_size cfg.ADS_BLOCKSIZE ≠ 0
          · left; simp [hl0, h1, h2, h3]
          · by_cases h4 : env.malloc_ok = false
            · left
              rw [if_neg h1, if_neg h2, if_neg h3, if_pos h4]
              exact ⟨hl0, rfl, discard_recording_idem s, Or.inl rfl⟩
            · by_cases h5 : env.read_len ≠ st_size
              · left
                rw [if_neg h1, if_neg h2, if_neg h3, if_neg h4, if_pos h5]
                exact ⟨hl0, rfl, discard_recording_idem s, Or.inr rfl⟩
              · right
                rw [if_neg h1, if_neg h2, if_neg h3, if_neg h4, if_neg h5]
                have h5' : env.read_len = st_size := not_not.mp h5
                refine ⟨hl0, st_size, rfl, by omega, by omega, not_not.mp h3, by simpa using h4,
                  h5', ?_⟩
                rw [h5']
/-! ## One read from a recording in memory -/

theorem ads_read_file_ready (cfg : Config) (hwf : cfg.WF) (s : SimState) (env : FileOutcome)
    (filename : String) (blocks : Mem) (n : Nat) (r : Recording) (T p : Nat)
    (hfn : filename ≠ "") (hret : ¬ (ads_init_file cfg s env filename).ret < 0)
    (hready : Ready cfg (ads_init_file cfg s env filename).state r T p)
    (hn : n ≤ cfg.MAX_TIMESTAMPS) :
    ∃ res, ads_read_file cfg s env (some filename) blocks n = some res
      ∧ res.ret = n + 1
      ∧ res.io = (ads_init_file cfg s env filename).io
      ∧ res.state.file_data = some r
      ∧ res.state.loaded_filename = (ads_init_file cfg s env filename).state.loaded_filename
      ∧ res.state.data_num_blocks = T
      ∧ res.state.data_block_pos = (((p + n) % T : Nat) : Int)
      ∧ res.state.data_last_timestamp
          = (if n = 0 then (ads_init_file cfg s env filename).state.data_last_timestamp
             else ((ads_init_file cfg s env filename).state.data_last_timestamp
                    + n * SAMPLE_RATE_NS) % 2 ^ 64)
      ∧ header_magic cfg res.blocks = cfg.ADS_HEADER_MAGIC
      ∧ header_num_blocks cfg res.blocks = n
      ∧ (∀ i, i < n → header_timestamp cfg res.blocks i
          = ((ads_init_file cfg s env filename).state.data_last_timestamp
              + i * SAMPLE_RATE_NS) % 2 ^ 64)
      ∧ (∀ i j, i < n → j < cfg.ADS_BLOCKSIZE →
          cfg.timestamps_off + 8 * n ≤ (i + 1) * cfg.ADS_BLOCKSIZE + j →
          res.blocks ((i + 1) * cfg.ADS_BLOCKSIZE + j)
            = r.bytes ((p + i) % T * cfg.ADS_BLOCKSIZE + j))
      ∧ (∀ k, (n + 1) * cfg.ADS_BLOCKSIZE ≤ k → cfg.timestamps_off + 8 * n ≤ k →
          res.blocks k = blocks k)
      ∧ (∀ i j, i < n → j < 8 → res.blocks (cfg.timestamps_off + 8 * i + j)
          = byteLE (((ads_init_file cfg s env filename).state.data_last_timestamp
              + i * SAMPLE_RATE_NS) % 2 ^ 64) j) := by
  obtain ⟨hfd, hT, hp, hpT, hsize⟩ := hready
  obtain ⟨b1, log1, h1, h2, h3⟩ :=
    copy_loop_spec cfg r T n (Nat.le_of_eq hsize.symm) (n + 1) 0 p blocks []
      (Nat.zero_le _) hpT (by omega)
  rw [Nat.cast_zero, Nat.sub_zero] at h1
  obtain ⟨ts, h4, h5, _⟩ := timestamp_loop_spec cfg n 0
    (ads_init_file cfg s env filename).state.data_timestamps
    (ads_init_file cfg s env filename).state.data_last_timestamp (by omega)
  have hnint : (n : Int) ≤ INT_MAX := by
    have h1 := hwf.blocksize_fits
    have h2 : n ≤ cfg.ADS_BLOCKSIZE / 8 := hn
    have h3 : n < 2 ^ 31 := by omega
    unfold INT_MAX
    have : (n : Int) < 2 ^ 31 := by exact_mod_cast h3
    omega
  obtain ⟨b2, h6, h7, h8, h9, h10⟩ := write_header_spec cfg hwf b1 n hnint (u64_bytes ts) 0
  have hres : ads_read_file cfg s env (some filename) blocks n
      = some ⟨(n : Int) + 1,
          { (ads_init_file cfg s env filename).state with
              data_block_pos := (((p + n) % T : Nat) : Int)
              data_timestamps := ts
              data_last_timestamp :=
                if n = 0 then (ads_init_file cfg s env filename).state.data_last_timestamp
                else ((ads_init_file cfg s env filename).state.data_last_timestamp
                        + n * SAMPLE_RATE_NS) % 2 ^ 64 },
          b2, (ads_init_file cfg s env filename).io, log1⟩ := by
    unfold ads_read_file
    simp only []
    rw [if_neg hfn, if_neg hret, hfd, hT, hp, Int.toNat_natCast, h1]
    simp only []
    rw [h4]
    simp only []
    rw [h6]
  refine ⟨_, hres, rfl, rfl, hfd, rfl, hT, rfl, rfl, h7, h8, ?_, ?_, ?_, ?_⟩
  · intro i hi
    unfold header_timestamp
    rw [loadLE_u64_bytes b2 ts cfg.timestamps_off i, h5 i (Nat.zero_le _) (by omega),
      Nat.sub_zero]
    intro k hk
    have := h9 k (by omega)
    rw [Nat.zero_add] at this
    exact this
  · intro i j hi hj hk
    show b2 _ = _
    rw [h10 _ hk, h2 i j (Nat.zero_le _) hi hj, Nat.sub_zero]
  · intro k hk1 hk2
    show b2 _ = _
    rw [h10 _ hk2, h3 k (Or.inr hk1)]
  · intro i j hi hj
    show b2 _ = _
    have := h9 (8 * i + j) (by omega)
    rw [Nat.zero_add, ← Nat.add_assoc] at this
    rw [this]
    unfold u64_bytes
    have e1 : (8 * i + j) / 8 = i := by omega
    have e2 : (8 * i + j) % 8 = j := by omega
    rw [e1, e2, ← byteLE_mod (ts i) j hj, h5 i (Nat.zero_le _) (by omega), Nat.sub_zero]
/-! ## The state invariant -/

theorem ads_file_loaded_pos (s : SimState) (filename : String)
    (h : ads_file_loaded s filename ≠ 0) :
    s.loaded_filename = some filename ∧ 0 < s.data_num_blocks
      ∧ s.data_block_pos < s.data_num_blocks := by
  unfold ads_file_loaded at h
  split_ifs at h with hc
  · exact hc
  · exact absurd rfl h

theorem discard_recording_unloaded (cfg : Config) (s : SimState) (h : Inv cfg s) :
    Unloaded (discard_recording s) := by
  unfold discard_recording
  split_ifs with hs
  · exact ⟨rfl, rfl, rfl, rfl⟩
  · rcases h with h | ⟨r, T, p, hr, _⟩
    · exact h
    · rw [hr.1] at hs
      simp at hs

theorem accepted_blocks (cfg : Config) (hwf : cfg.WF) (st_size : Int)
    (h1 : (cfg.ADS_BLOCKSIZE : Int) * 32 ≤ st_size)
    (h2 : st_size ≤ (cfg.ADS_BLOCKSIZE : Int) * 1000)
    (h3 : Int.tmod st_size cfg.ADS_BLOCKSIZE = 0) :
    ∃ T : Nat, 32 ≤ T ∧ T ≤ 1000 ∧ Int.tdiv st_size cfg.ADS_BLOCKSIZE = T
      ∧ st_size.toNat = T * cfg.ADS_BLOCKSIZE := by
  have hB : (0 : Int) < cfg.ADS_BLOCKSIZE := by exact_mod_cast hwf.blocksize_pos
  have hq := Int.tdiv_mul_cancel_of_tmod_eq_zero h3
  generalize Int.tdiv st_size cfg.ADS_BLOCKSIZE = q at hq
  have hq1 : 32 ≤ q := by
    by_contra hc
    have : q * (cfg.ADS_BLOCKSIZE : Int) ≤ 31 * (cfg.ADS_BLOCKSIZE : Int) :=
      Int.mul_le_mul_of_nonneg_right (by omega) (le_of_lt hB)
    omega
  have hq2 : q ≤ 1000 := by
    by_contra hc
    have : 1001 * (cfg.ADS_BLOCKSIZE : Int) ≤ q * (cfg.ADS_BLOCKSIZE : Int) :=
      Int.mul_le_mul_of_nonneg_right (by omega) (le_of_lt hB)
    omega
  refine ⟨q.toNat, by omega, by omega, by omega, ?_⟩
  have e : st_size = ((q.toNat * cfg.ADS_BLOCKSIZE : Nat) : Int) := by
    push_cast
    rw [Int.toNat_of_nonneg (by omega), hq]
  rw [e, Int.toNat_natCast]

theorem ads_init_file_ready (cfg : Config) (hwf : cfg.WF) (s : SimState) (env : FileOutcome)
    (filename : String) (hinv : Inv cfg s)
    (hret : ¬ (ads_init_file cfg s env filename).ret < 0) :
    ∃ r T p, Ready cfg (ads_init_file cfg s env filename).state r T p ∧ 32 ≤ T ∧ T ≤ 1000 := by
  rcases ads_init_file_cases cfg s env filename with ⟨hl, he⟩ | ⟨_, hr, _⟩ |
    ⟨_, st_size, _, h1, h2, h3, _, _, he⟩
  · rw [he]
    rcases hinv with hu | hr
    · have := (ads_file_loaded_pos s filename hl).2.1
      rw [hu.2.2.1] at this
      omega
    · exact hr
  · rw [hr] at hret
    omega
  · obtain ⟨T, hT1, hT2, hT3, hT4⟩ := accepted_blocks cfg hwf st_size h1 h2 h3
    rw [he]
    exact ⟨⟨st_size.toNat, env.content⟩, T, 0, ⟨rfl, hT3, rfl, by omega, hT4⟩, hT1, hT2⟩

theorem ads_init_file_inv (cfg : Config) (hwf : cfg.WF) (s : SimState) (env : FileOutcome)
    (filename : String) (hinv : Inv cfg s) :
    Inv cfg (ads_init_file cfg s env filename).state := by
  by_cases hret : (ads_init_file cfg s env filename).ret < 0
  · rcases ads_init_file_cases cfg s env filename with ⟨_, he⟩ | ⟨_, _, hs, _⟩ |
      ⟨_, st_size, _, _, _, _, _, _, he⟩
    · rw [he]; exact hinv
    · rw [hs]; exact Or.inl (discard_recording_unloaded cfg s hinv)
    · rw [he] at hret
      simp at hret
  · exact Or.inr (ads_init_file_ready cfg hwf s env filename hinv hret)

theorem ads_read_file_negative (cfg : Config) (s : SimState) (env : FileOutcome)
    (filename : String) (blocks : Mem) (n : Int) (hfn : filename ≠ "")
    (hret : ¬ (ads_init_file cfg s env filename).ret < 0) (hn : n < 0) :
    ads_read_file cfg s env (some filename) blocks n = none := by
  unfold ads_read_file
  simp only []
  rw [if_neg hfn, if_neg hret, copy_loop_done _ _ _ _ _ _ _ _ _ (by omega)]
  simp only []
  have : n.toNat = 0 := by omega
  rw [this, timestamp_loop]
  simp only []
  rw [write_header_neg _ _ _ hn]

theorem ads_read_file_too_many (cfg : Config) (s : SimState) (env : FileOutcome)
    (filename : String) (blocks : Mem) (n : Nat) (hfn : filename ≠ "")
    (hret : ¬ (ads_init_file cfg s env filename).ret < 0) (hn : cfg.MAX_TIMESTAMPS < n) :
    ads_read_file cfg s env (some filename) blocks n = none := by
  unfold ads_read_file
  simp only []
  rw [if_neg hfn, if_neg hret, Int.toNat_natCast]
  cases copy_loop cfg (ads_init_file cfg s env filename).state.file_data
      (ads_init_file cfg s env filename).state.data_num_blocks n (n + 1) 0
      (ads_init_file cfg s env filename).state.data_block_pos blocks [] with
  | none => rfl
  | some x =>
    simp only []
    rw [timestamp_loop_none cfg n 0 _ _ (by omega) (by omega)]

/-- Every way `ads_read_file` returns: a rejected filename, a failed load, or a
batch of `n` blocks with `n` at most `MAX_TIMESTAMPS`. -/
theorem ads_read_file_some (cfg : Config) (s : SimState) (env : FileOutcome)
    (filename : Option String) (blocks : Mem) (num_blocks : Int) (res : ReadResult)
    (h : ads_read_file cfg s env filename blocks num_blocks = some res) :
    ((filename = none ∨ filename = some "") ∧ res = ⟨-1, s, blocks, [], []⟩)
    ∨ (∃ fn, filename = some fn ∧ fn ≠ "" ∧ (ads_init_file cfg s env fn).ret < 0
        ∧ res = ⟨-1, (ads_init_file cfg s env fn).state, blocks,
                  (ads_init_file cfg s env fn).io, []⟩)
    ∨ (∃ fn, filename = some fn ∧ fn ≠ "" ∧ ¬ (ads_init_file cfg s env fn).ret < 0
        ∧ ∃ n : Nat, num_blocks = n ∧ n ≤ cfg.MAX_TIMESTAMPS) := by
  cases filename with
  | none =>
    left
    unfold ads_read_file at h
    simp only [Option.some.injEq] at h
    exact ⟨Or.inl rfl, h.symm⟩
  | some fn =>
    by_cases hfn : fn = ""
    · left
      unfold ads_read_file at h
      simp only [] at h
      rw [if_pos hfn] at h
      simp only [Option.some.injEq] at h
      exact ⟨Or.inr (by rw [hfn]), h.symm⟩
    · right
      by_cases hret : (ads_init_file cfg s env fn).ret < 0
      · left
        unfold ads_read_file at h
        simp only [] at h
        rw [if_neg hfn, if_pos hret] at h
        simp only [Option.some.injEq] at h
        exact ⟨fn, rfl, hfn, hret, h.symm⟩
      · right
        refine ⟨fn, rfl, hfn, hret, ?_⟩
        by_cases hneg : num_blocks < 0
        · rw [ads_read_file_negative cfg s env fn blocks num_blocks hfn hret hneg] at h
          simp at h
        · refine ⟨num_blocks.toNat, by omega, ?_⟩
          by_contra hbig
          have e : num_blocks = (num_blocks.toNat : Int) := by omega
          rw [e, ads_read_file_too_many cfg s env fn blocks num_blocks.toNat hfn hret
            (by omega)] at h
          simp at h

theorem ads_read_file_inv (cfg : Config) (hwf : cfg.WF) (s : SimState) (env : FileOutcome)
    (filename : Option String) (blocks : Mem) (num_blocks : Int) (res : ReadResult)
    (hinv : Inv cfg s) (h : ads_read_file cfg s env filename blocks num_blocks = some res) :
    Inv cfg res.state := by
  rcases ads_read_file_some cfg s env filename blocks num_blocks res h with
    ⟨_, hr⟩ | ⟨fn, _, _, _, hr⟩ | ⟨fn, hf, hfn, hret, n, hn, hmax⟩
  · rw [hr]; exact hinv
  · rw [hr]; exact ads_init_file_inv cfg hwf s env fn hinv
  · obtain ⟨r, T, p, hready, hT1, hT2⟩ := ads_init_file_ready cfg hwf s env fn hinv hret
    obtain ⟨res', h1, _, _, h4, _, h6, h7, _⟩ :=
      ads_read_file_ready cfg hwf s env fn blocks n r T p hfn hret hready hmax
    rw [hf, hn, h1] at h
    simp only [Option.some.injEq] at h
    subst h
    have hTpos : 0 < T := by omega
    exact Or.inr ⟨r, T, (p + n) % T, ⟨h4, h6, h7, Nat.mod_lt _ hTpos, hready.2.2.2.2⟩, hT1, hT2⟩

theorem reachable_inv (cfg : Config) (hwf : cfg.WF) (s : SimState) (h : Reachable cfg s) :
    Inv cfg s := by
  induction h with
  | start => exact Or.inl ⟨rfl, rfl, rfl, rfl⟩
  | init_file s env filename _ ih => exact ads_init_file_inv cfg hwf s env filename ih
  | read_file s env filename blocks n res _ hres ih =>
    exact ads_read_file_inv cfg hwf s env filename blocks n res ih hres
/-! ## The live read -/

theorem read_loop_exit (cfg : Config) (driver : Nat → DriverRead) (n : Int) (fuel : Nat)
    (retries blocks_read : Int) (log : List ReadCall) (blocks : Mem)
    (h : ¬ (retries < 2 ∧ blocks_read < n)) :
    read_loop cfg driver n fuel retries blocks_read log blocks
      = some (blocks_read, blocks, log) := by
  unfold read_loop
  rw [if_neg h]

theorem sampleConfig_wf : sampleConfig.WF :=
  ⟨by decide, by decide, by decide, by decide, by decide, by decide, by decide⟩

theorem ads_init_file_same (cfg : Config) (s : SimState) (env : FileOutcome)
    (filename : String) (h1 : s.loaded_filename = some filename)
    (h2 : 0 < s.data_num_blocks) (h3 : s.data_block_pos < s.data_num_blocks) :
    ads_init_file cfg s env filename = ⟨0, s, []⟩ := by
  unfold ads_init_file
  rw [if_pos]
  unfold ads_file_loaded
  rw [if_pos ⟨h1, h2, h3⟩]
  decide

theorem ready_init_file (cfg : Config) (s : SimState) (env : FileOutcome) (filename : String)
    (r : Recording) (T p : Nat) (h1 : s.loaded_filename = some filename)
    (hready : Ready cfg s r T p) :
    ads_init_file cfg s env filename = ⟨0, s, []⟩ := by
  obtain ⟨_, hT, hp, hpT, _⟩ := hready
  apply ads_init_file_same cfg s env filename h1
  · rw [hT]; exact_mod_cast (by omega : 0 < T)
  · rw [hT, hp]; exact_mod_cast hpT

/-- Data blocks of a file read whose header fits block 0: for every loaded recording
of `T` blocks with cursor `p < T` and every `num_blocks` with
`timestamps_off + 8 * num_blocks <= ADS_BLOCKSIZE`, `ads_read_file` with the
loaded identity returns a buffer whose data block `1 + i` is, byte for byte,
recording block `(p + i) mod T`, for every `i < num_blocks`. -/
theorem read_copies_recording_blocks (cfg : Config) (hwf : cfg.WF) (s : SimState)
    (env : FileOutcome) (filename : String) (blocks : Mem) (r : Recording) (T p n : Nat)
    (hfn : filename ≠ "") (hload : s.loaded_filename = some filename)
    (hready : Ready cfg s r T p)
    (hfit : cfg.timestamps_off + 8 * n ≤ cfg.ADS_BLOCKSIZE) :
    ∃ res, ads_read_file cfg s env (some filename) blocks n = some res
      ∧ res.ret = n + 1
      ∧ ∀ i j, i < n → j < cfg.ADS_BLOCKSIZE →
          res.blocks ((1 + i) * cfg.ADS_BLOCKSIZE + j)
            = r.bytes ((p + i) % T * cfg.ADS_BLOCKSIZE + j) := by
  have hinit := ready_init_file cfg s env filename r T p hload hready
  have hret : ¬ (ads_init_file cfg s env filename).ret < 0 := by rw [hinit]; simp
  have hready' : Ready cfg (ads_init_file cfg s env filename).state r T p := by
    rw [hinit]; exact hready
  have hmax : n ≤ cfg.MAX_TIMESTAMPS := by unfold Config.MAX_TIMESTAMPS; omega
  obtain ⟨res, h1, h2, _, _, _, _, _, _, _, _, _, h12, _⟩ :=
    ads_read_file_ready cfg hwf s env filename blocks n r T p hfn hret hready' hmax
  refine ⟨res, h1, h2, ?_⟩
  intro i j hi hj
  rw [Nat.add_comm 1 i]
  apply h12 i j hi hj
  have : 1 * cfg.ADS_BLOCKSIZE ≤ (i + 1) * cfg.ADS_BLOCKSIZE :=
    Nat.mul_le_mul_right _ (by omega)
  omega

theorem sampleLoaded_ready :
    Ready sampleConfig sampleLoaded ⟨163840, sampleBytes⟩ 40 0 :=
  ⟨rfl, by decide, by decide, by decide, by decide⟩

theorem sampleLoaded_filename : sampleLoaded.loaded_filename = some "rec.bin" := by decide

/-- C2 fails on the code: with 4096-byte blocks and the timestamps at offset 8, a
read of 512 blocks (`MAX_TIMESTAMPS`) from the loaded 40-block recording returns
513 and leaves the second byte of `timestamps[511]` (131) at offset 1 of data
block 1, where recording block 0 has the byte 1: the header has run over the block
that was left for it at the front. -/
theorem read_overwrites_data_block_1 :
    Ready sampleConfig sampleLoaded ⟨163840, sampleBytes⟩ 40 0
    ∧ sampleLoaded.loaded_filename = some "rec.bin"
    ∧ ∃ res, ads_read_file sampleConfig sampleLoaded sampleFile (some "rec.bin") zeroMem 512
          = some res
        ∧ res.ret = 512 + 1
        ∧ res.blocks ((1 + 0) * 4096 + 1) = 131
        ∧ res.blocks ((1 + 0) * 4096 + 1) ≠ sampleBytes ((0 + 0) % 40 * 4096 + 1) := by
  refine ⟨sampleLoaded_ready, sampleLoaded_filename, ?_⟩
  have hinit := ready_init_file sampleConfig sampleLoaded sampleFile "rec.bin" _ 40 0
    sampleLoaded_filename sampleLoaded_ready
  have hret : ¬ (ads_init_file sampleConfig sampleLoaded sampleFile "rec.bin").ret < 0 := by
    rw [hinit]; simp
  have hready : Ready sampleConfig
      (ads_init_file sampleConfig sampleLoaded sampleFile "rec.bin").state
      ⟨163840, sampleBytes⟩ 40 0 := by
    rw [hinit]; exact sampleLoaded_ready
  obtain ⟨res, h1, h2, _, _, _, _, _, _, _, _, _, _, _, h14⟩ :=
    ads_read_file_ready sampleConfig sampleConfig_wf sampleLoaded sampleFile "rec.bin" zeroMem
      512 _ 40 0 (by decide) hret hready (by decide)
  have h := h14 511 1 (by decide) (by decide)
  rw [hinit] at h
  have e : sampleConfig.timestamps_off + 8 * 511 + 1 = (1 + 0) * 4096 + 1 := by decide
  rw [e] at h
  have hv : res.blocks ((1 + 0) * 4096 + 1) = 131 := by
    rw [h]
    decide
  refine ⟨res, h1, h2, hv, ?_⟩
  rw [hv]
  decide

/-- Reads of 30 then 30 blocks from the 40-block recording: the second batch holds
recording blocks 30..39 followed by 0..19, in that order. -/
theorem read_copies_recording_blocks_witness :
    ∃ r1 r2, ads_read_file sampleConfig sampleLoaded sampleFile (some "rec.bin") zeroMem 30
        = some r1
      ∧ ads_read_file sampleConfig r1.state sampleFile (some "rec.bin") zeroMem 30 = some r2
      ∧ r2.ret = 30 + 1
      ∧ ∀ i j, i < 30 → j < 4096 →
          r2.blocks ((1 + i) * 4096 + j)
            = sampleBytes ((if i < 10 then 30 + i else i - 10) * 4096 + j) := by
  have hinit := ready_init_file sampleConfig sampleLoaded sampleFile "rec.bin" _ 40 0
    sampleLoaded_filename sampleLoaded_ready
  have hret : ¬ (ads_init_file sampleConfig sampleLoaded sampleFile "rec.bin").ret < 0 := by
    rw [hinit]; simp
  have hready : Ready sampleConfig
      (ads_init_file sampleConfig sampleLoaded sampleFile "rec.bin").state
      ⟨163840, sampleBytes⟩ 40 0 := by
    rw [hinit]; exact sampleLoaded_ready
  obtain ⟨r1, h1, _, _, h4, h5, h6, h7, _⟩ :=
    ads_read_file_ready sampleConfig sampleConfig_wf sampleLoaded sampleFile "rec.bin" zeroMem
      30 _ 40 0 (by decide) hret hready (by decide)
  rw [hinit] at h5
  obtain ⟨r2, g1, g2, g3⟩ :=
    read_copies_recording_blocks sampleConfig sampleConfig_wf r1.state sampleFile "rec.bin"
      zeroMem ⟨163840, sampleBytes⟩ 40 30 30 (by decide) (h5.trans sampleLoaded_filename)
      ⟨h4, h6, h7, by decide, by decide⟩ (by decide)
  refine ⟨r1, r2, h1, g1, g2, ?_⟩
  intro i j hi hj
  have := g3 i j hi hj
  have e : (30 + i) % 40 = if i < 10 then 30 + i else i - 10 := by
    split_ifs <;> omega
  rw [e] at this
  exact this

theorem blocks_before_zero (calls : List ReadRequest) : blocks_before calls 0 = 0 := by
  simp [blocks_before]

theorem blocks_before_cons (c : ReadRequest) (rest : List ReadRequest) (j : Nat) :
    blocks_before (c :: rest) (j + 1) = c.num_blocks + blocks_before rest j := by
  simp [blocks_before]

theorem blocks_before_succ (calls : List ReadRequest) : ∀ (j : Nat) (c : ReadRequest),
    calls[j]? = some c → blocks_before calls (j + 1) = blocks_before calls j + c.num_blocks := by
  induction calls with
  | nil => intro j c h; simp at h
  | cons d rest ih =>
    intro j c h
    cases j with
    | zero =>
      simp at h
      subst h
      rw [blocks_before_cons, blocks_before_zero, blocks_before_zero]
      omega
    | succ j =>
      simp at h
      rw [blocks_before_cons, blocks_before_cons, ih j c h]
      omega

theorem read_seq_spec (cfg : Config) (hwf : cfg.WF) (filename : String) (r : Recording)
    (T : Nat) (hfn : filename ≠ "") :
    ∀ (calls : List ReadRequest) (s : SimState) (p : Nat),
      s.loaded_filename = some filename → Ready cfg s r T p →
      (∀ c, c ∈ calls → c.num_blocks ≤ cfg.MAX_TIMESTAMPS) →
      ∃ results, read_seq cfg filename s calls = some results
        ∧ results.length = calls.length
        ∧ ∀ j c res, calls[j]? = some c → results[j]? = some res →
            res.ret = (c.num_blocks : Int) + 1 ∧ res.io = []
            ∧ (∀ i, i < c.num_blocks → header_timestamp cfg res.blocks i
                = (s.data_last_timestamp + SAMPLE_RATE_NS * blocks_before calls j
                    + i * SAMPLE_RATE_NS) % 2 ^ 64)
            ∧ res.state.data_block_pos
                = (((p + blocks_before calls (j + 1)) % T : Nat) : Int) := by
  intro calls
  induction calls with
  | nil =>
    intro s p _ _ _
    exact ⟨[], rfl, rfl, fun j c res h => by simp at h⟩
  | cons d rest ih =>
    intro s p hload hready hc
    have hd := hc d (List.mem_cons_self _ _)
    have hinit := ready_init_file cfg s d.env filename r T p hload hready
    have hret : ¬ (ads_init_file cfg s d.env filename).ret < 0 := by rw [hinit]; simp
    have hready' : Ready cfg (ads_init_file cfg s d.env filename).state r T p := by
      rw [hinit]; exact hready
    obtain ⟨res, h1, h2, h3, h4, h5, h6, h7, h8, _, _, h11, _⟩ :=
      ads_read_file_ready cfg hwf s d.env filename d.blocks d.num_blocks r T p hfn hret
        hready' hd
    rw [hinit] at h3 h5 h8 h11
    simp only [] at h3 h5 h8 h11
    have hL : res.state.data_last_timestamp % 2 ^ 64
        = (s.data_last_timestamp + d.num_blocks * SAMPLE_RATE_NS) % 2 ^ 64 := by
      rw [h8]
      split_ifs with h0
      · rw [h0, Nat.zero_mul, Nat.add_zero]
      · rw [Nat.mod_mod]
    have hTpos : 0 < T := by have := hready.2.2.2.1; omega
    obtain ⟨results, g1, g2, g3⟩ := ih res.state ((p + d.num_blocks) % T) (h5.trans hload)
      ⟨h4, h6, h7, Nat.mod_lt _ hTpos, hready.2.2.2.2⟩
      (fun c hcm => hc c (List.mem_cons_of_mem _ hcm))
    refine ⟨res :: results, ?_, by simp [g2], ?_⟩
    · rw [read_seq, h1]
      simp only []
      rw [g1]
    · intro j c res' hj hr
      cases j with
      | zero =>
        simp at hj hr
        subst hj hr
        refine ⟨h2, h3, ?_, ?_⟩
        · intro i hi
          rw [h11 i hi, blocks_before_zero, Nat.mul_zero, Nat.add_zero]
        · rw [h7, blocks_before_cons, blocks_before_zero, Nat.add_zero]
      | succ j =>
        simp at hj hr
        obtain ⟨a1, a2, a3, a5⟩ := g3 j c res' hj hr
        refine ⟨a1, a2, ?_, ?_⟩
        · intro i hi
          rw [a3 i hi, blocks_before_cons, Nat.add_assoc]
          have hm : (res.state.data_last_timestamp
                + (SAMPLE_RATE_NS * blocks_before rest j + i * SAMPLE_RATE_NS)) % 2 ^ 64
              = (s.data_last_timestamp + d.num_blocks * SAMPLE_RATE_NS
                + (SAMPLE_RATE_NS * blocks_before rest j + i * SAMPLE_RATE_NS)) % 2 ^ 64 :=
            Nat.ModEq.add_right _ hL
          rw [hm]
          refine congrArg (fun x => x % 2 ^ 64) ?_
          ring
        · rw [a5, blocks_before_cons, Nat.mod_add_mod, Nat.add_assoc]

theorem ads_init_file_accept (cfg : Config) (s : SimState) (env : FileOutcome)
    (filename : String) (st_size : Int) (hl : ads_file_loaded s filename = 0)
    (hst : env.st_size = some st_size) (h1 : (cfg.ADS_BLOCKSIZE : Int) * 32 ≤ st_size)
    (h2 : st_size ≤ (cfg.ADS_BLOCKSIZE : Int) * 1000)
    (h3 : Int.tmod st_size cfg.ADS_BLOCKSIZE = 0) (h4 : env.malloc_ok = true)
    (h5 : env.read_len = st_size) :
    ads_init_file cfg s env filename =
      ⟨1, { discard_recording s with
              file_data := some ⟨st_size.toNat, env.content⟩
              loaded_filename := if env.strdup_ok then some filename else none
              data_block_pos := 0
              data_num_blocks := Int.tdiv st_size cfg.ADS_BLOCKSIZE
              data_last_timestamp := 0
              data_timestamps := fun _ => 0 },
        [.stat, .open, .read, .close]⟩ := by
  unfold ads_init_file
  rw [if_neg (by rw [hl]; simp), hst]
  simp only []
  rw [if_neg (by omega), if_neg (by omega), if_neg (by rw [h3]; simp),
    if_neg (by rw [h4]; simp), if_neg (by rw [h5]; simp), h5]

/-- What a load leaves: the recording in memory under its name, the cursor and the
last timestamp at 0. -/
theorem ads_init_file_loads (cfg : Config) (hwf : cfg.WF) (s : SimState) (env : FileOutcome)
    (filename : String) (h : (ads_init_file cfg s env filename).ret = 1) :
    ∃ (st_size : Int) (T : Nat), env.st_size = some st_size
      ∧ 32 ≤ T ∧ T ≤ 1000 ∧ st_size = (T : Int) * cfg.ADS_BLOCKSIZE
      ∧ Ready cfg (ads_init_file cfg s env filename).state ⟨st_size.toNat, env.content⟩ T 0
      ∧ (ads_init_file cfg s env filename).state.data_last_timestamp = 0
      ∧ (ads_init_file cfg s env filename).state.loaded_filename
          = (if env.strdup_ok then some filename else none)
      ∧ (ads_init_file cfg s env filename).io = [.stat, .open, .read, .close] := by
  rcases ads_init_file_cases cfg s env filename with ⟨_, he⟩ | ⟨_, hr, _⟩ |
    ⟨_, st_size, hst, h1, h2, h3, _, _, he⟩
  · rw [he] at h; simp at h
  · rw [hr] at h; simp at h
  · obtain ⟨T, hT1, hT2, hT3, hT4⟩ := accepted_blocks cfg hwf st_size h1 h2 h3
    refine ⟨st_size, T, hst, hT1, hT2, ?_, ?_, ?_, ?_, ?_⟩
    · have := Int.tdiv_mul_cancel_of_tmod_eq_zero h3
      rw [hT3] at this
      exact this.symm
    · rw [he]
      exact ⟨rfl, hT3, rfl, by omega, hT4⟩
    · rw [he]
    · rw [he]
    · rw [he]

/-- C3: after one load of a recording, every sequence of `ads_read_file` calls with
the same identity and block counts `n_1 .. n_k` succeeds without touching the file
again, the first timestamp of batch `j` is `SAMPLE_RATE_NS` times
`n_1 + ... + n_(j-1)`, and the first timestamp of each batch is `SAMPLE_RATE_NS`
more than the last timestamp of the batch before it (modulo `2^64`), wherever the
cursor, which is `(n_1 + ... + n_j) mod T` after batch `j`, stands. -/
theorem timestamps_never_reset (cfg : Config) (hwf : cfg.WF) (s : SimState)
    (env : FileOutcome) (filename : String) (calls : List ReadRequest)
    (hfn : filename ≠ "") (hload : (ads_init_file cfg s env filename).ret = 1)
    (hdup : env.strdup_ok = true)
    (hcalls : ∀ c, c ∈ calls → c.num_blocks ≤ cfg.MAX_TIMESTAMPS) :
    ∃ results,
      read_seq cfg filename (ads_init_file cfg s env filename).state calls = some results
      ∧ results.length = calls.length
      ∧ (∀ j c res, calls[j]? = some c → results[j]? = some res →
          res.ret = (c.num_blocks : Int) + 1 ∧ res.io = []
          ∧ (1 ≤ c.num_blocks → header_timestamp cfg res.blocks 0
              = (SAMPLE_RATE_NS * blocks_before calls j) % 2 ^ 64)
          ∧ res.state.data_block_pos
              = (blocks_before calls (j + 1) : Int)
                  % (ads_init_file cfg s env filename).state.data_num_blocks)
      ∧ (∀ j c res c' res', calls[j]? = some c → results[j]? = some res →
          calls[j + 1]? = some c' → results[j + 1]? = some res' →
          1 ≤ c.num_blocks → 1 ≤ c'.num_blocks →
          header_timestamp cfg res'.blocks 0
            = (header_timestamp cfg res.blocks (c.num_blocks - 1) + SAMPLE_RATE_NS)
                % 2 ^ 64) := by
  obtain ⟨st_size, T, _, _, _, _, hready, hL, hname, _⟩ :=
    ads_init_file_loads cfg hwf s env filename hload
  rw [hdup] at hname
  obtain ⟨results, h1, h2, h3⟩ := read_seq_spec cfg hwf filename _ T hfn calls
    (ads_init_file cfg s env filename).state 0 hname hready hcalls
  rw [hL] at h3
  refine ⟨results, h1, h2, ?_, ?_⟩
  · intro j c res hj hr
    obtain ⟨a1, a2, a3, a5⟩ := h3 j c res hj hr
    refine ⟨a1, a2, ?_, ?_⟩
    · intro hc1
      rw [a3 0 (by omega), Nat.zero_add, Nat.zero_mul, Nat.add_zero]
    · rw [a5, hready.2.1, Nat.zero_add]
      push_cast
      rfl
  · intro j c res c' res' hj hr hj' hr' hc1 hc1'
    obtain ⟨_, _, a3, _⟩ := h3 j c res hj hr
    obtain ⟨_, _, b3, _⟩ := h3 (j + 1) c' res' hj' hr'
    rw [b3 0 (by omega), a3 (c.num_blocks - 1) (by omega),
      blocks_before_succ calls j c hj, Nat.mod_add_mod]
    refine congrArg (fun x => x % 2 ^ 64) ?_
    have e : c.num_blocks = (c.num_blocks - 1) + 1 := by omega
    rw [Nat.zero_add, Nat.zero_mul, Nat.add_zero]
    nth_rewrite 1 [e]
    ring

theorem timestamps_never_reset_witness :
    ∃ results,
      read_seq sampleConfig "rec.bin" sampleLoaded
          [⟨sampleFile, zeroMem, 30⟩, ⟨missingFile, zeroMem, 10⟩, ⟨sampleFile, zeroMem, 30⟩]
        = some results
      ∧ results.length = 3
      ∧ (∀ res, results[1]? = some res →
          res.ret = 10 + 1 ∧ res.io = []
          ∧ header_timestamp sampleConfig res.blocks 0 = 32000 * 30
          ∧ res.state.data_block_pos = 0)
      ∧ (∀ res, results[2]? = some res →
          res.ret = 30 + 1 ∧ res.io = []
          ∧ header_timestamp sampleConfig res.blocks 0 = 32000 * 40
          ∧ res.state.data_block_pos = 30) := by
  obtain ⟨results, h1, h2, h3, _⟩ := timestamps_never_reset sampleConfig sampleConfig_wf
    SimState.init sampleFile "rec.bin"
    [⟨sampleFile, zeroMem, 30⟩, ⟨missingFile, zeroMem, 10⟩, ⟨sampleFile, zeroMem, 30⟩]
    (by decide) (by decide) rfl
    (by
      intro c hc
      simp only [List.mem_cons, List.mem_singleton, List.not_mem_nil, or_false] at hc
      rcases hc with rfl | rfl | rfl <;> decide)
  refine ⟨results, h1, h2, ?_, ?_⟩
  · intro res hr
    obtain ⟨a1, a2, a3, a4⟩ := h3 1 ⟨missingFile, zeroMem, 10⟩ res rfl hr
    exact ⟨a1, a2, a3 (by decide), a4⟩
  · intro res hr
    obtain ⟨a1, a2, a3, a4⟩ := h3 2 ⟨sampleFile, zeroMem, 30⟩ res rfl hr
    exact ⟨a1, a2, a3 (by decide), a4⟩

/-- C4 (amended): for every successful `ads_read_file` call with
`1 <= num_blocks <= ADS_BLOCKSIZE/8`, with `L` the last timestamp after the load
step of the call (the value on entry when the recording is already loaded, 0 when
the call loads the file), the header holds `timestamps[i] = L + i * 32000` modulo
`2^64` and the last timestamp on exit is `L + num_blocks * 32000` modulo `2^64`;
when `L + num_blocks * 32000 < 2^64` nothing wraps and the timestamps of the batch
increase strictly. -/
theorem batch_timestamps (cfg : Config) (hwf : cfg.WF) (s : SimState) (hs : Reachable cfg s)
    (env : FileOutcome) (filename : String) (blocks : Mem) (n : Nat)
    (hfn : filename ≠ "") (hret : ¬ (ads_init_file cfg s env filename).ret < 0)
    (hn1 : 1 ≤ n) (hn2 : n ≤ cfg.ADS_BLOCKSIZE / 8) :
    ∃ res L, ads_read_file cfg s env (some filename) blocks n = some res
      ∧ res.ret = (n : Int) + 1
      ∧ L = (ads_init_file cfg s env filename).state.data_last_timestamp
      ∧ (ads_file_loaded s filename ≠ 0 → L = s.data_last_timestamp)
      ∧ (ads_file_loaded s filename = 0 → L = 0)
      ∧ (∀ i, i < n → header_timestamp cfg res.blocks i = (L + i * SAMPLE_RATE_NS) % 2 ^ 64)
      ∧ res.state.data_last_timestamp = (L + n * SAMPLE_RATE_NS) % 2 ^ 64
      ∧ (L + n * SAMPLE_RATE_NS < 2 ^ 64 →
          (∀ i, i < n → header_timestamp cfg res.blocks i = L + i * SAMPLE_RATE_NS)
          ∧ (∀ i, i + 1 < n →
              header_timestamp cfg res.blocks i < header_timestamp cfg res.blocks (i + 1))
          ∧ res.state.data_last_timestamp = L + n * SAMPLE_RATE_NS) := by
  have hinv := reachable_inv cfg hwf s hs
  obtain ⟨r, T, p, hready, _, _⟩ := ads_init_file_ready cfg hwf s env filename hinv hret
  obtain ⟨res, h1, h2, _, _, _, _, _, h8, _, _, h11, _⟩ :=
    ads_read_file_ready cfg hwf s env filename blocks n r T p hfn hret hready hn2
  rw [if_neg (by omega)] at h8
  refine ⟨res, _, h1, h2, rfl, ?_, ?_, h11, h8, ?_⟩
  · intro hl
    rcases ads_init_file_cases cfg s env filename with ⟨_, he⟩ | ⟨hl0, _⟩ | ⟨hl0, _⟩
    · rw [he]
    · exact absurd hl0 hl
    · exact absurd hl0 hl
  · intro hl
    rcases ads_init_file_cases cfg s env filename with ⟨hl1, _⟩ | ⟨_, hr, _⟩ |
      ⟨_, _, _, _, _, _, _, _, he⟩
    · exact absurd hl hl1
    · rw [hr] at hret
      simp at hret
    · rw [he]
  · intro hlt
    have hR : 0 < SAMPLE_RATE_NS := by decide
    have hi : ∀ i, i < n → header_timestamp cfg res.blocks i
        = (ads_init_file cfg s env filename).state.data_last_timestamp + i * SAMPLE_RATE_NS := by
      intro i hi
      rw [h11 i hi]
      apply Nat.mod_eq_of_lt
      have : i * SAMPLE_RATE_NS ≤ n * SAMPLE_RATE_NS := Nat.mul_le_mul_right _ (by omega)
      omega
    refine ⟨hi, ?_, ?_⟩
    · intro i hi1
      rw [hi i (by omega), hi (i + 1) hi1, Nat.add_mul]
      omega
    · rw [h8]
      exact Nat.mod_eq_of_lt hlt

/-- C4 is false as stated: after a read of 5 blocks from `"rec.bin"` the last
timestamp is 160000; a read of 5 blocks from another recording then succeeds and
loads that file, and `timestamps[0]` of its header is 0, not 160000. -/
theorem batch_timestamps_counterexample :
    (ads_read_file sampleConfig sampleLoaded sampleFile (some "rec.bin") zeroMem 5).map
        (fun r1 => r1.state.data_last_timestamp) = some 160000
    ∧ ((ads_read_file sampleConfig sampleLoaded sampleFile (some "rec.bin") zeroMem 5).bind
        (fun r1 => ads_read_file sampleConfig r1.state sampleFile (some "other.bin")
          zeroMem 5)).map
        (fun r2 => (r2.ret, header_timestamp sampleConfig r2.blocks 0)) = some (5 + 1, 0) := by
  constructor <;> decide

theorem batch_timestamps_witness :
    ∃ res, ads_read_file sampleConfig sampleLoaded sampleFile (some "rec.bin") zeroMem 30
        = some res
      ∧ res.ret = 30 + 1
      ∧ (∀ i, i < 30 → header_timestamp sampleConfig res.blocks i = 0 + i * 32000)
      ∧ (∀ i, i + 1 < 30 → header_timestamp sampleConfig res.blocks i
            < header_timestamp sampleConfig res.blocks (i + 1))
      ∧ res.state.data_last_timestamp = 960000 := by
  obtain ⟨res, L, h1, h2, h3, _, _, _, _, h8⟩ :=
    batch_timestamps sampleConfig sampleConfig_wf sampleLoaded
      (Reachable.init_file SimState.init sampleFile "rec.bin" Reachable.start)
      sampleFile "rec.bin" zeroMem 30 (by decide) (by decide) (by decide) (by decide)
  have hL : L = 0 := by rw [h3]; decide
  subst hL
  obtain ⟨a1, a2, a3⟩ := h8 (by decide)
  exact ⟨res, h1, h2, a1, a2, a3⟩

/-- C5: when `stat`, the allocation and the full read succeed on a file whose
identity is not currently loaded, `ads_init_file` returns 1 if and only if the size
is a multiple of `ADS_BLOCKSIZE` between 32 and 1000 blocks inclusive, and returns
-1 otherwise; 32 and 1000 blocks are accepted, 31 and 1001 blocks are rejected; on
acceptance the block count is `size / ADS_BLOCKSIZE` and the cursor and the last
timestamp are 0. -/
theorem init_accepts_valid_sizes (cfg : Config) (hwf : cfg.WF) (s : SimState)
    (env : FileOutcome) (filename : String) (st_size : Int)
    (hl : ads_file_loaded s filename = 0) (hst : env.st_size = some st_size)
    (hm : env.malloc_ok = true) (hr : env.read_len = st_size) :
    ((ads_init_file cfg s env filename).ret = 1 ↔
        ((cfg.ADS_BLOCKSIZE : Int) ∣ st_size ∧ 32 * (cfg.ADS_BLOCKSIZE : Int) ≤ st_size
          ∧ st_size ≤ 1000 * (cfg.ADS_BLOCKSIZE : Int)))
    ∧ ((ads_init_file cfg s env filename).ret ≠ 1 →
        (ads_init_file cfg s env filename).ret = -1)
    ∧ ((ads_init_file cfg s env filename).ret = 1 →
        (ads_init_file cfg s env filename).state.data_num_blocks
            = st_size / (cfg.ADS_BLOCKSIZE : Int)
        ∧ (ads_init_file cfg s env filename).state.data_block_pos = 0
        ∧ (ads_init_file cfg s env filename).state.data_last_timestamp = 0)
    ∧ (st_size = 32 * (cfg.ADS_BLOCKSIZE : Int) → (ads_init_file cfg s env filename).ret = 1)
    ∧ (st_size = 1000 * (cfg.ADS_BLOCKSIZE : Int) →
        (ads_init_file cfg s env filename).ret = 1)
    ∧ (st_size = 31 * (cfg.ADS_BLOCKSIZE : Int) →
        (ads_init_file cfg s env filename).ret = -1)
    ∧ (st_size = 1001 * (cfg.ADS_BLOCKSIZE : Int) →
        (ads_init_file cfg s env filename).ret = -1) := by
  have hB : (0 : Int) < cfg.ADS_BLOCKSIZE := by exact_mod_cast hwf.blocksize_pos
  have hiff : (ads_init_file cfg s env filename).ret = 1 ↔
      ((cfg.ADS_BLOCKSIZE : Int) ∣ st_size ∧ 32 * (cfg.ADS_BLOCKSIZE : Int) ≤ st_size
        ∧ st_size ≤ 1000 * (cfg.ADS_BLOCKSIZE : Int)) := by
    constructor
    · intro h
      obtain ⟨sz, T, h1, h2, h3, h4, _⟩ := ads_init_file_loads cfg hwf s env filename h
      rw [hst] at h1
      simp only [Option.some.injEq] at h1
      subst h1
      refine ⟨⟨T, by rw [h4]; ring⟩, ?_, ?_⟩
      · rw [h4]
        exact Int.mul_le_mul_of_nonneg_right (by exact_mod_cast h2) (le_of_lt hB)
      · rw [h4]
        exact Int.mul_le_mul_of_nonneg_right (by exact_mod_cast h3) (le_of_lt hB)
    · intro ⟨h1, h2, h3⟩
      have h0 : 0 ≤ st_size := by nlinarith
      have hmod : Int.tmod st_size cfg.ADS_BLOCKSIZE = 0 := by
        rw [Int.tmod_eq_emod h0 (le_of_lt hB)]
        exact Int.emod_eq_zero_of_dvd h1
      rw [ads_init_file_accept cfg s env filename st_size hl hst (by omega) (by omega) hmod
        hm hr]
  have hneg : (ads_init_file cfg s env filename).ret ≠ 1 →
      (ads_init_file cfg s env filename).ret = -1 := by
    intro h
    rcases ads_init_file_cases cfg s env filename with ⟨hl1, _⟩ | ⟨_, hr1, _⟩ |
      ⟨_, _, _, _, _, _, _, _, he⟩
    · exact absurd hl hl1
    · exact hr1
    · rw [he] at h
      exact absurd rfl h
  refine ⟨hiff, hneg, ?_, ?_, ?_, ?_, ?_⟩
  · intro h
    obtain ⟨sz, T, h1, h2, _, h4, h5, h6, _⟩ := ads_init_file_loads cfg hwf s env filename h
    rw [hst] at h1
    simp only [Option.some.injEq] at h1
    subst h1
    refine ⟨?_, ?_, h6⟩
    · rw [h5.2.1, h4, Int.mul_ediv_cancel _ (ne_of_gt hB)]
    · rw [h5.2.2.1]
      rfl
  · intro h
    exact hiff.mpr ⟨⟨32, by rw [h]; ring⟩, by omega, by omega⟩
  · intro h
    exact hiff.mpr ⟨⟨1000, by rw [h]; ring⟩, by omega, by omega⟩
  · intro h
    apply hneg
    intro h1
    have := (hiff.mp h1).2.1
    omega
  · intro h
    apply hneg
    intro h1
    have := (hiff.mp h1).2.2
    omega

theorem init_accepts_valid_sizes_witness :
    (ads_init_file sampleConfig SimState.init sampleFile "rec.bin").ret = 1
    ∧ (ads_init_file sampleConfig SimState.init sampleFile "rec.bin").state.data_num_blocks
        = 163840 / ((4096 : Nat) : Int)
    ∧ (ads_init_file sampleConfig SimState.init sampleFile "rec.bin").state.data_block_pos = 0
    ∧ (ads_init_file sampleConfig SimState.init sampleFile "rec.bin").state.data_last_timestamp
        = 0 :=
  have h := init_accepts_valid_sizes sampleConfig sampleConfig_wf SimState.init sampleFile
    "rec.bin" 163840 (by decide) rfl rfl rfl
  have h1 := h.1.mpr ⟨by decide, by decide, by decide⟩
  ⟨h1, h.2.2.1 h1⟩

/-- C6: for every loaded recording of `T` blocks with cursor `p < T` and every
`num_blocks >= 0`, a successful `ads_read_file` with the loaded identity leaves the
cursor at `(p + num_blocks) mod T`, however many times the request wraps; the read
succeeds whenever `num_blocks` is at most `MAX_TIMESTAMPS`. -/
theorem cursor_advances_mod (cfg : Config) (hwf : cfg.WF) (s : SimState) (env : FileOutcome)
    (filename : String) (blocks : Mem) (r : Recording) (T p : Nat) (num_blocks : Int)
    (hload : s.loaded_filename = some filename) (hready : Ready cfg s r T p)
    (hn : 0 ≤ num_blocks) :
    (∀ res, ads_read_file cfg s env (some filename) blocks num_blocks = some res →
        res.ret ≠ -1 → res.state.data_block_pos = ((p : Int) + num_blocks) % (T : Int))
    ∧ (filename ≠ "" → num_blocks ≤ cfg.MAX_TIMESTAMPS →
        ∃ res, ads_read_file cfg s env (some filename) blocks num_blocks = some res
          ∧ res.ret = num_blocks + 1
          ∧ res.state.data_block_pos = ((p : Int) + num_blocks) % (T : Int)) := by
  have hinit := ready_init_file cfg s env filename r T p hload hready
  have hret : ¬ (ads_init_file cfg s env filename).ret < 0 := by rw [hinit]; simp
  have hready' : Ready cfg (ads_init_file cfg s env filename).state r T p := by
    rw [hinit]; exact hready
  have e : num_blocks = (num_blocks.toNat : Int) := by omega
  have hex : filename ≠ "" → num_blocks ≤ cfg.MAX_TIMESTAMPS →
      ∃ res, ads_read_file cfg s env (some filename) blocks num_blocks = some res
        ∧ res.ret = num_blocks + 1
        ∧ res.state.data_block_pos = ((p : Int) + num_blocks) % (T : Int) := by
    intro hfn hmax
    obtain ⟨res, h1, h2, _, _, _, _, h7, _⟩ :=
      ads_read_file_ready cfg hwf s env filename blocks num_blocks.toNat r T p hfn hret
        hready' (by omega)
    rw [← e] at h1 h2
    refine ⟨res, h1, h2, ?_⟩
    rw [h7]
    push_cast
    rw [← e]
  refine ⟨?_, hex⟩
  intro res hres hne
  rcases ads_read_file_some cfg s env (some filename) blocks num_blocks res hres with
    ⟨_, hr⟩ | ⟨fn, _, _, _, hr⟩ | ⟨fn, hf, hfn, _, n, hnn, hmax⟩
  · rw [hr] at hne; exact absurd rfl hne
  · rw [hr] at hne; exact absurd rfl hne
  · simp only [Option.some.injEq] at hf
    subst hf
    obtain ⟨res', h1, _, h3⟩ := hex hfn (by rw [hnn]; exact_mod_cast hmax)
    rw [hres] at h1
    simp only [Option.some.injEq] at h1
    subst h1
    exact h3

theorem cursor_advances_mod_witness :
    ∃ res, ads_read_file sampleConfig sampleLoaded missingFile (some "rec.bin") zeroMem 100
        = some res
      ∧ res.ret = 100 + 1 ∧ res.state.data_block_pos = 20 :=
  (cursor_advances_mod sampleConfig sampleConfig_wf sampleLoaded missingFile "rec.bin" zeroMem
    ⟨163840, sampleBytes⟩ 40 0 100 sampleLoaded_filename sampleLoaded_ready (by decide)).2
    (by decide) (by decide)

theorem ads_read_file_shape (cfg : Config) (s : SimState) (env : FileOutcome)
    (filename : String) (blocks : Mem) (n : Int) (res : ReadResult) (hfn : filename ≠ "")
    (hret : ¬ (ads_init_file cfg s env filename).ret < 0)
    (h : ads_read_file cfg s env (some filename) blocks n = some res) :
    res.ret = n + 1 ∧ res.io = (ads_init_file cfg s env filename).io := by
  unfold ads_read_file at h
  simp only [] at h
  rw [if_neg hfn, if_neg hret] at h
  cases h1 : copy_loop cfg (ads_init_file cfg s env filename).state.file_data
      (ads_init_file cfg s env filename).state.data_num_blocks n (n.toNat + 1) 0
      (ads_init_file cfg s env filename).state.data_block_pos blocks [] with
  | none => rw [h1] at h; simp at h
  | some x =>
    rw [h1] at h
    simp only [] at h
    cases h2 : timestamp_loop cfg n.toNat 0
        (ads_init_file cfg s env filename).state.data_timestamps
        (ads_init_file cfg s env filename).state.data_last_timestamp with
    | none => rw [h2] at h; simp at h
    | some y =>
      rw [h2] at h
      simp only [] at h
      cases h3 : write_header cfg x.2.1 n (u64_bytes y.1) 0 with
      | none => rw [h3] at h; simp at h
      | some b =>
        rw [h3] at h
        simp only [Option.some.injEq] at h
        subst h
        exact ⟨rfl, rfl⟩

theorem ads_read_file_fails (cfg : Config) (s : SimState) (env : FileOutcome)
    (filename : Option String) (blocks : Mem) (n : Int)
    (h : filename = none ∨ filename = some ""
      ∨ ∃ fn, filename = some fn ∧ (ads_init_file cfg s env fn).ret < 0) :
    ∃ st io, ads_read_file cfg s env filename blocks n = some ⟨-1, st, blocks, io, []⟩
      ∧ (st = s ∨ ∃ fn, filename = some fn ∧ fn ≠ ""
            ∧ (ads_init_file cfg s env fn).ret < 0
            ∧ st = discard_recording s) := by
  rcases h with h | h | ⟨fn, h, hret⟩
  · subst h
    exact ⟨s, [], rfl, Or.inl rfl⟩
  · subst h
    refine ⟨s, [], ?_, Or.inl rfl⟩
    unfold ads_read_file
    simp
  · subst h
    by_cases hfn : fn = ""
    · subst hfn
      refine ⟨s, [], ?_, Or.inl rfl⟩
      unfold ads_read_file
      simp
    · refine ⟨(ads_init_file cfg s env fn).state, (ads_init_file cfg s env fn).io, ?_,
        Or.inr ⟨fn, rfl, hfn, hret, ?_⟩⟩
      · unfold ads_read_file
        simp only []
        rw [if_neg hfn, if_pos hret]
      · rcases ads_init_file_cases cfg s env fn with ⟨_, he⟩ | ⟨_, _, hs, _⟩ |
          ⟨_, _, _, _, _, _, _, _, he⟩
        · rw [he] at hret; simp at hret
        · exact hs
        · rw [he] at hret; simp at hret

theorem discard_recording_fields (s : SimState) :
    (discard_recording s).data_last_timestamp = s.data_last_timestamp
    ∧ (discard_recording s).data_timestamps = s.data_timestamps
    ∧ ((discard_recording s).data_block_pos = s.data_block_pos
        ∨ (s.file_data.isSome = true ∧ (discard_recording s).data_block_pos = 0)) := by
  unfold discard_recording
  split_ifs with h
  · exact ⟨rfl, rfl, Or.inr ⟨h, rfl⟩⟩
  · exact ⟨rfl, rfl, Or.inl rfl⟩

theorem ads_init_file_fail_state (cfg : Config) (s : SimState) (env : FileOutcome)
    (fn : String) (hret : (ads_init_file cfg s env fn).ret < 0) :
    (ads_init_file cfg s env fn).state = discard_recording s := by
  rcases ads_init_file_cases cfg s env fn with ⟨_, he⟩ | ⟨_, _, hs, _⟩ |
    ⟨_, _, _, _, _, _, _, _, he⟩
  · rw [he] at hret; simp at hret
  · exact hs
  · rw [he] at hret; simp at hret

theorem discard_recording_some (s : SimState) (h : s.file_data.isSome = true) :
    (discard_recording s).loaded_filename = none
    ∧ (discard_recording s).data_num_blocks = 0
    ∧ (discard_recording s).data_block_pos = 0 := by
  unfold discard_recording
  rw [if_pos h]
  exact ⟨rfl, rfl, rfl⟩

theorem discard_recording_none (s : SimState) (h : s.file_data = none) :
    discard_recording s = s := by
  unfold discard_recording
  rw [h]
  rfl

/-- C7 (amended): `ads_read_file` returns -1 exactly when the filename is null or
empty or `ads_init_file` fails, and every other result is `num_blocks + 1` (there
is one for `0 <= num_blocks <= MAX_TIMESTAMPS`); whenever it returns -1 no block
copy and no header write take place, so the caller's buffer, the last timestamp and
the timestamp array are unchanged; with a null or empty filename the whole state,
the cursor included, is unchanged and no file-system call is made; when
`ads_init_file` fails the state is the one left by its discard block: with a
recording in memory that recording and the loaded filename are dropped and the
block count and the cursor are reset to 0, and with none in memory the state is
unchanged. -/
theorem read_file_failure (cfg : Config) (hwf : cfg.WF) (s : SimState) (env : FileOutcome)
    (filename : Option String) (blocks : Mem) (num_blocks : Int) :
    ((filename = none ∨ filename = some ""
        ∨ ∃ fn, filename = some fn ∧ (ads_init_file cfg s env fn).ret < 0) →
      ∃ res, ads_read_file cfg s env filename blocks num_blocks = some res ∧ res.ret = -1)
    ∧ (∀ res, ads_read_file cfg s env filename blocks num_blocks = some res →
        res.ret = -1 →
        (filename = none ∨ filename = some ""
          ∨ ∃ fn, filename = some fn ∧ (ads_init_file cfg s env fn).ret < 0)
        ∧ res.blocks = blocks ∧ res.copies = []
        ∧ res.state.data_last_timestamp = s.data_last_timestamp
        ∧ res.state.data_timestamps = s.data_timestamps
        ∧ ((filename = none ∨ filename = some "") → res.state = s ∧ res.io = [])
        ∧ (∀ fn, filename = some fn → fn ≠ "" →
            (ads_init_file cfg s env fn).ret < 0
            ∧ res.state = discard_recording s
            ∧ res.state.file_data = none
            ∧ (s.file_data.isSome = true →
                res.state.loaded_filename = none
                ∧ res.state.data_num_blocks = 0
                ∧ res.state.data_block_pos = 0)
            ∧ (s.file_data = none → res.state = s)))
    ∧ (∀ res, ads_read_file cfg s env filename blocks num_blocks = some res →
        res.ret ≠ -1 → res.ret = num_blocks + 1)
    ∧ (Reachable cfg s → 0 ≤ num_blocks → num_blocks ≤ cfg.MAX_TIMESTAMPS →
        ∃ res, ads_read_file cfg s env filename blocks num_blocks = some res) := by
  refine ⟨?_, ?_, ?_, ?_⟩
  · intro h
    obtain ⟨st, io, h1, _⟩ := ads_read_file_fails cfg s env filename blocks num_blocks h
    exact ⟨_, h1, rfl⟩
  · intro res hres hm1
    rcases ads_read_file_some cfg s env filename blocks num_blocks res hres with
      ⟨hf, hr⟩ | ⟨fn, hf, hfn, hret, hr⟩ | ⟨fn, hf, hfn, hret, n, hnn, _⟩
    · subst hr
      refine ⟨?_, rfl, rfl, rfl, rfl, fun _ => ⟨rfl, rfl⟩, ?_⟩
      · rcases hf with hf | hf
        · exact Or.inl hf
        · exact Or.inr (Or.inl hf)
      · intro fn' hf' hfn'
        exfalso
        rcases hf with hf | hf
        · rw [hf] at hf'; simp at hf'
        · rw [hf] at hf'
          simp only [Option.some.injEq] at hf'
          exact hfn' hf'.symm
    · subst hr
      have hst := ads_init_file_fail_state cfg s env fn hret
      refine ⟨Or.inr (Or.inr ⟨fn, hf, hret⟩), rfl, rfl, ?_, ?_, ?_, ?_⟩
      · show (ads_init_file cfg s env fn).state.data_last_timestamp = _
        rw [hst]
        exact (discard_recording_fields s).1
      · show (ads_init_file cfg s env fn).state.data_timestamps = _
        rw [hst]
        exact (discard_recording_fields s).2.1
      · intro hnull
        exfalso
        rcases hnull with h0 | h0
        · rw [h0] at hf; simp at hf
        · rw [h0] at hf
          simp only [Option.some.injEq] at hf
          exact hfn hf.symm
      · intro fn' hf' _
        have e : fn' = fn := by
          rw [hf] at hf'
          simp only [Option.some.injEq] at hf'
          exact hf'.symm
        subst e
        refine ⟨hret, hst, ?_, ?_, ?_⟩
        · show (ads_init_file cfg s env fn').state.file_data = none
          rw [hst]
          exact discard_recording_file_data s
        · intro hsome
          show (ads_init_file cfg s env fn').state.loaded_filename = none
            ∧ (ads_init_file cfg s env fn').state.data_num_blocks = 0
            ∧ (ads_init_file cfg s env fn').state.data_block_pos = 0
          rw [hst]
          exact discard_recording_some s hsome
        · intro hnone
          show (ads_init_file cfg s env fn').state = s
          rw [hst]
          exact discard_recording_none s hnone
    · exfalso
      subst hf
      have := (ads_read_file_shape cfg s env fn blocks num_blocks res hfn hret hres).1
      omega
  · intro res hres hne
    rcases ads_read_file_some cfg s env filename blocks num_blocks res hres with
      ⟨_, hr⟩ | ⟨fn, _, _, _, hr⟩ | ⟨fn, hf, hfn, hret, _⟩
    · rw [hr] at hne; exact absurd rfl hne
    · rw [hr] at hne; exact absurd rfl hne
    · subst hf
      exact (ads_read_file_shape cfg s env fn blocks num_blocks res hfn hret hres).1
  · intro hs h0 hmax
    by_cases hbad : filename = none ∨ filename = some ""
        ∨ ∃ fn, filename = some fn ∧ (ads_init_file cfg s env fn).ret < 0
    · obtain ⟨st, io, h1, _⟩ := ads_read_file_fails cfg s env filename blocks num_blocks hbad
      exact ⟨_, h1⟩
    · cases filename with
      | none => exact absurd (Or.inl rfl) hbad
      | some fn =>
        have hfn : fn ≠ "" := fun h => hbad (Or.inr (Or.inl (by rw [h])))
        have hret : ¬ (ads_init_file cfg s env fn).ret < 0 :=
          fun h => hbad (Or.inr (Or.inr ⟨fn, rfl, h⟩))
        obtain ⟨r, T, p, hready, _, _⟩ :=
          ads_init_file_ready cfg hwf s env fn (reachable_inv cfg hwf s hs) hret
        have e : num_blocks = (num_blocks.toNat : Int) := by omega
        obtain ⟨res, h1, _⟩ :=
          ads_read_file_ready cfg hwf s env fn blocks num_blocks.toNat r T p hfn hret hready
            (by omega)
        rw [← e] at h1
        exact ⟨res, h1⟩

/-- C7 is false as stated: after a read of 5 blocks from `"rec.bin"` the cursor is
5; a read from a file that does not exist then returns -1 and leaves the cursor
at 0. -/
theorem read_file_failure_counterexample :
    (ads_read_file sampleConfig sampleLoaded sampleFile (some "rec.bin") zeroMem 5).map
        (fun r1 => r1.state.data_block_pos) = some 5
    ∧ ((ads_read_file sampleConfig sampleLoaded sampleFile (some "rec.bin") zeroMem 5).bind
        (fun r1 => ads_read_file sampleConfig r1.state missingFile (some "other.bin")
          zeroMem 5)).map
        (fun r2 => (r2.ret, r2.state.data_block_pos)) = some (-1, 0) := by
  constructor <;> decide

theorem read_file_failure_witness :
    (∃ res, ads_read_file sampleConfig sampleLoaded missingFile (some "other.bin") zeroMem 5
        = some res ∧ res.ret = -1
        ∧ res.state = discard_recording sampleLoaded
        ∧ res.state.file_data = none
        ∧ res.state.data_block_pos = 0)
    ∧ (∃ res, ads_read_file sampleConfig sampleLoaded missingFile (some "") zeroMem 5
        = some res ∧ res.ret = -1 ∧ res.state = sampleLoaded)
    ∧ (∃ res, ads_read_file sampleConfig sampleLoaded missingFile (some "rec.bin") zeroMem 5
        = some res) :=
  have h1 := read_file_failure sampleConfig sampleConfig_wf sampleLoaded missingFile
    (some "other.bin") zeroMem 5
  have h2 := read_file_failure sampleConfig sampleConfig_wf sampleLoaded missingFile
    (some "rec.bin") zeroMem 5
  have h3 := read_file_failure sampleConfig sampleConfig_wf sampleLoaded missingFile
    (some "") zeroMem 5
  ⟨(h1.1 (Or.inr (Or.inr ⟨"other.bin", rfl, by decide⟩))).elim fun res hr =>
      have g := (h1.2.1 res hr.1 hr.2).2.2.2.2.2.2 "other.bin" rfl (by decide)
      ⟨res, hr.1, hr.2, g.2.1, g.2.2.1, (g.2.2.2.1 (by decide)).2.2⟩,
   (h3.1 (Or.inr (Or.inl rfl))).elim fun res hr =>
      ⟨res, hr.1, hr.2, ((h3.2.1 res hr.1 hr.2).2.2.2.2.2.1 (Or.inr rfl)).1⟩,
   h2.2.2.2 (Reachable.init_file SimState.init sampleFile "rec.bin" Reachable.start)
     (by decide) (by decide)⟩

/-- C8: whenever `ads_init_file` returns -1 no recording is left loaded: the
recording buffer and the loaded filename are absent, the block count and the cursor
are 0, and `ads_file_loaded` returns 0 for every filename afterwards, also when a
recording was loaded before the failing call. -/
theorem failed_init_leaves_nothing (cfg : Config) (hwf : cfg.WF) (s : SimState)
    (hs : Reachable cfg s) (env : FileOutcome) (filename : String)
    (hret : (ads_init_file cfg s env filename).ret = -1) :
    (ads_init_file cfg s env filename).state.file_data = none
    ∧ (ads_init_file cfg s env filename).state.loaded_filename = none
    ∧ (ads_init_file cfg s env filename).state.data_num_blocks = 0
    ∧ (ads_init_file cfg s env filename).state.data_block_pos = 0
    ∧ ∀ other, ads_file_loaded (ads_init_file cfg s env filename).state other = 0 := by
  have hu : Unloaded (ads_init_file cfg s env filename).state := by
    rcases ads_init_file_cases cfg s env filename with ⟨_, he⟩ | ⟨_, _, hst, _⟩ |
      ⟨_, _, _, _, _, _, _, _, he⟩
    · rw [he] at hret; simp at hret
    · rw [hst]
      exact discard_recording_unloaded cfg s (reachable_inv cfg hwf s hs)
    · rw [he] at hret; simp at hret
  refine ⟨hu.1, hu.2.1, hu.2.2.1, hu.2.2.2, ?_⟩
  intro other
  unfold ads_file_loaded
  rw [if_neg]
  intro hc
  rw [hu.2.1] at hc
  simp at hc

theorem failed_init_leaves_nothing_witness :
    sampleLoaded.loaded_filename = some "rec.bin"
    ∧ (ads_init_file sampleConfig sampleLoaded missingFile "other.bin").ret = -1
    ∧ (ads_init_file sampleConfig sampleLoaded missingFile "other.bin").state.file_data = none
    ∧ (ads_init_file sampleConfig sampleLoaded missingFile "other.bin").state.loaded_filename
        = none
    ∧ (ads_init_file sampleConfig sampleLoaded missingFile "other.bin").state.data_num_blocks
        = 0
    ∧ (ads_init_file sampleConfig sampleLoaded missingFile "other.bin").state.data_block_pos
        = 0
    ∧ ∀ other, ads_file_loaded
        (ads_init_file sampleConfig sampleLoaded missingFile "other.bin").state other = 0 :=
  ⟨sampleLoaded_filename, by decide,
   failed_init_leaves_nothing sampleConfig sampleConfig_wf sampleLoaded
     (Reachable.init_file SimState.init sampleFile "rec.bin" Reachable.start)
     missingFile "other.bin" (by decide)⟩

/-- C9: in every state in which a recording is loaded and not fully consumed
(the loaded filename is the requested one, the block count is positive and the
cursor is below it), `ads_init_file` with the same identity returns 0, makes no
file-system call and leaves the whole state unchanged, whatever the file system
would answer; `ads_read_file` with the same identity makes no file-system call
either and keeps the recording buffer and the block count. -/
theorem loaded_identity_not_reread (cfg : Config) (s : SimState) (env : FileOutcome)
    (filename : String) (h1 : s.loaded_filename = some filename)
    (h2 : 0 < s.data_num_blocks) (h3 : s.data_block_pos < s.data_num_blocks) :
    (ads_init_file cfg s env filename).ret = 0
    ∧ (ads_init_file cfg s env filename).io = []
    ∧ (ads_init_file cfg s env filename).state = s
    ∧ (∀ blocks num_blocks res,
        ads_read_file cfg s env (some filename) blocks num_blocks = some res →
        res.io = [] ∧ res.state.file_data = s.file_data
          ∧ res.state.data_num_blocks = s.data_num_blocks) := by
  have hinit := ads_init_file_same cfg s env filename h1 h2 h3
  refine ⟨by rw [hinit], by rw [hinit], by rw [hinit], ?_⟩
  intro blocks n res hres
  by_cases hfn : filename = ""
  · subst hfn
    unfold ads_read_file at hres
    simp at hres
    subst hres
    exact ⟨rfl, rfl, rfl⟩
  · have hret : ¬ (ads_init_file cfg s env filename).ret < 0 := by rw [hinit]; simp
    unfold ads_read_file at hres
    simp only [] at hres
    rw [if_neg hfn, if_neg hret] at hres
    cases g1 : copy_loop cfg (ads_init_file cfg s env filename).state.file_data
        (ads_init_file cfg s env filename).state.data_num_blocks n (n.toNat + 1) 0
        (ads_init_file cfg s env filename).state.data_block_pos blocks [] with
    | none => rw [g1] at hres; simp at hres
    | some x =>
      rw [g1] at hres
      simp only [] at hres
      cases g2 : timestamp_loop cfg n.toNat 0
          (ads_init_file cfg s env filename).state.data_timestamps
          (ads_init_file cfg s env filename).state.data_last_timestamp with
      | none => rw [g2] at hres; simp at hres
      | some y =>
        rw [g2] at hres
        simp only [] at hres
        cases g3 : write_header cfg x.2.1 n (u64_bytes y.1) 0 with
        | none => rw [g3] at hres; simp at hres
        | some b =>
          rw [g3] at hres
          simp only [Option.some.injEq] at hres
          subst hres
          rw [hinit]
          exact ⟨rfl, rfl, rfl⟩

theorem loaded_identity_not_reread_witness :
    (ads_init_file sampleConfig sampleLoaded missingFile "rec.bin").ret = 0
    ∧ (ads_init_file sampleConfig sampleLoaded missingFile "rec.bin").io = []
    ∧ (ads_init_file sampleConfig sampleLoaded missingFile "rec.bin").state = sampleLoaded :=
  have h := loaded_identity_not_reread sampleConfig sampleLoaded missingFile "rec.bin"
    (by decide) (by decide) (by decide)
  ⟨h.1, h.2.1, h.2.2.1⟩

theorem loadLE_shift (m m' : Mem) : ∀ (w off off' : Nat),
    (∀ j, j < w → m (off + j) = m' (off' + j)) → loadLE m off w = loadLE m' off' w := by
  intro w
  induction w with
  | zero => intro off off' _; rfl
  | succ w ih =>
    intro off off' h
    have h0 : m off = m' off' := by simpa using h 0 (Nat.succ_pos w)
    have h1 : loadLE m (off + 1) w = loadLE m' (off' + 1) w := by
      apply ih
      intro j hj
      have := h (j + 1) (Nat.succ_lt_succ hj)
      have e : off + 1 + j = off + (j + 1) := by omega
      have e' : off' + 1 + j = off' + (j + 1) := by omega
      rw [e, e']; exact this
    rw [loadLE, loadLE, h0, h1]

theorem header_fields_outside (cfg : Config) (hwf : cfg.WF) (blocks : Mem) (n : Int)
    (k : Nat) (hk : cfg.timestamps_off ≤ k) : header_fields cfg blocks n k = blocks k := by
  have h1 := hwf.magic_first
  have h2 := hwf.count_second
  unfold header_fields
  rw [storeLE_outside _ _ _ _ _ (by omega), storeLE_outside _ _ _ _ _ (by omega)]

/-- C11 fails on the code: for one block of 4096 bytes whose data bytes are 170 and
whose trailing timestamp bytes are 17, `ads_read` returns 2 and leaves
`timestamps[0]` made of the first 8 bytes of the data block (`0xAAAAAAAAAAAAAAAA`),
not the trailing timestamp of the raw stream (`0x1111111111111111`). -/
theorem live_read_timestamp_source :
    (ads_read sampleConfig 3 0 rawDriver zeroMem 1).map
        (fun r => (r.ret, header_timestamp sampleConfig r.blocks 0))
      = some (1 + 1, 0xAAAAAAAAAAAAAAAA)
    ∧ loadLE rawStream (1 * 4096 + 8 * 0) 8 = 0x1111111111111111
    ∧ loadLE rawStream ((1 - 1) * 4096 + 8 * 0) 8 = 0xAAAAAAAAAAAAAAAA := by
  refine ⟨?_, ?_, ?_⟩ <;> decide

theorem read_loop_success (cfg : Config) (driver : Nat → DriverRead) (n : Nat) (hn : 1 ≤ n)
    (fuel : Nat) (retries : Int) (hr : retries < 2) (log : List ReadCall) (blocks : Mem)
    (hlen : (driver log.length).len = (n : Int) * cfg.ADS_BLOCKSIZE + (n : Int) * 8) :
    read_loop cfg driver n (fuel + 1) retries 0 log blocks
      = some ((n : Int) + 1,
          memcpy
            (header_fields cfg (memcpy blocks cfg.ADS_BLOCKSIZE (driver log.length).data 0
              (n * cfg.ADS_BLOCKSIZE + n * 8)) n)
            cfg.timestamps_off
            (header_fields cfg (memcpy blocks cfg.ADS_BLOCKSIZE (driver log.length).data 0
              (n * cfg.ADS_BLOCKSIZE + n * 8)) n)
            (n * cfg.ADS_BLOCKSIZE) (8 * n),
          log ++ [⟨cfg.ADS_BLOCKSIZE, (1 + (n : Int)) * cfg.ADS_BLOCKSIZE⟩]) := by
  have hE : 0 < (n : Int) * cfg.ADS_BLOCKSIZE + (n : Int) * 8 := by
    have h1 : 0 ≤ (n : Int) * cfg.ADS_BLOCKSIZE := by positivity
    have h2 : (1 : Int) ≤ n := by exact_mod_cast hn
    omega
  have hcond : retries < 2 ∧ (0 : Int) < n := ⟨hr, by exact_mod_cast hn⟩
  have e1 : ((n : Int) * cfg.ADS_BLOCKSIZE + (n : Int) * 8).toNat
      = n * cfg.ADS_BLOCKSIZE + n * 8 := by
    have : (n : Int) * cfg.ADS_BLOCKSIZE + (n : Int) * 8
        = ((n * cfg.ADS_BLOCKSIZE + n * 8 : Nat) : Int) := by push_cast; ring
    rw [this, Int.toNat_natCast]
  have e2 : ((n : Int) * cfg.ADS_BLOCKSIZE).toNat = n * cfg.ADS_BLOCKSIZE := by
    have : (n : Int) * cfg.ADS_BLOCKSIZE = ((n * cfg.ADS_BLOCKSIZE : Nat) : Int) := by
      push_cast; ring
    rw [this, Int.toNat_natCast]
  have e3 : ((n : Int) * 8).toNat = 8 * n := by
    have : (n : Int) * 8 = ((8 * n : Nat) : Int) := by push_cast; ring
    rw [this, Int.toNat_natCast]
  rw [read_loop, if_pos hcond]
  simp only []
  rw [hlen, if_neg (by omega), if_neg (by omega), if_neg (by simp), e1, e2]
  unfold write_header
  simp only []
  rw [if_neg (by omega), e3]
  simp only []
  rw [read_loop_exit _ _ _ _ _ _ _ _ (by omega)]

/-- What a successful `ads_read` leaves in the buffer when the first driver read
returns the expected size: `timestamps[i]` holds the 8 bytes at offset
`(n - 1) * ADS_BLOCKSIZE + 8 * i` of the raw stream, which lie in its last data
block, and the data blocks hold the raw data blocks wherever the header has not
been written over them. -/
theorem ads_read_success_bytes (cfg : Config) (hwf : cfg.WF) (device_fd open_result : Int)
    (driver : Nat → DriverRead) (blocks : Mem) (n : Nat) (hn : 1 ≤ n)
    (hdev : device_fd ≠ 0 ∨ 0 ≤ open_result)
    (hlen : (driver 0).len = (n : Int) * cfg.ADS_BLOCKSIZE + (n : Int) * 8) :
    ∃ res, ads_read cfg device_fd open_result driver blocks n = some res
      ∧ res.ret = (n : Int) + 1
      ∧ (∀ i, i < n → header_timestamp cfg res.blocks i
          = loadLE (driver 0).data ((n - 1) * cfg.ADS_BLOCKSIZE + 8 * i) 8)
      ∧ (∀ i j, i < n → j < cfg.ADS_BLOCKSIZE →
          cfg.timestamps_off + 8 * n ≤ (1 + i) * cfg.ADS_BLOCKSIZE + j →
          res.blocks ((1 + i) * cfg.ADS_BLOCKSIZE + j)
            = (driver 0).data (i * cfg.ADS_BLOCKSIZE + j)) := by
  have hloop := read_loop_success cfg driver n hn 1 0 (by omega) [] blocks hlen
  have hcond : ¬ ((if device_fd = 0 then 1 else 0) = 1
      ∧ (if device_fd = 0 then open_result else device_fd) < 0) := by
    intro hc
    by_cases h0 : device_fd = 0
    · rw [if_pos h0] at hc
      omega
    · have := hc.1
      rw [if_neg h0] at this
      omega
  have hroom := hwf.header_room
  have hnB : cfg.ADS_BLOCKSIZE ≤ n * cfg.ADS_BLOCKSIZE := by
    have := Nat.mul_le_mul_right cfg.ADS_BLOCKSIZE hn
    omega
  have hsplit : n * cfg.ADS_BLOCKSIZE
      = cfg.ADS_BLOCKSIZE + (n - 1) * cfg.ADS_BLOCKSIZE := by
    have e : n = 1 + (n - 1) := by omega
    nth_rewrite 1 [e]
    rw [Nat.add_mul, Nat.one_mul]
  unfold ads_read
  simp only []
  rw [if_neg hcond, hloop]
  refine ⟨_, rfl, rfl, ?_, ?_⟩
  · intro i hi
    unfold header_timestamp
    apply loadLE_shift
    intro j hj
    show memcpy _ _ _ _ _ _ = _
    have e : cfg.timestamps_off + 8 * i + j = cfg.timestamps_off + (8 * i + j) := by omega
    rw [e, memcpy_inside _ _ _ _ _ _ (by omega),
      header_fields_outside cfg hwf _ _ _ (by omega)]
    have e2 : n * cfg.ADS_BLOCKSIZE + (8 * i + j)
        = cfg.ADS_BLOCKSIZE + ((n - 1) * cfg.ADS_BLOCKSIZE + (8 * i + j)) := by omega
    rw [e2, memcpy_inside _ _ _ _ _ _ (by omega)]
    congr 1
    omega
  · intro i j hi hj hk
    show memcpy _ _ _ _ _ _ = _
    rw [memcpy_outside _ _ _ _ _ _ (Or.inr hk),
      header_fields_outside cfg hwf _ _ _ (by omega)]
    have e : (1 + i) * cfg.ADS_BLOCKSIZE + j
        = cfg.ADS_BLOCKSIZE + (i * cfg.ADS_BLOCKSIZE + j) := by
      rw [Nat.add_mul, Nat.one_mul]; omega
    have hlt : i * cfg.ADS_BLOCKSIZE + j < n * cfg.ADS_BLOCKSIZE + n * 8 := by
      have : (i + 1) * cfg.ADS_BLOCKSIZE ≤ n * cfg.ADS_BLOCKSIZE :=
        Nat.mul_le_mul_right _ (by omega)
      have e' : (i + 1) * cfg.ADS_BLOCKSIZE = i * cfg.ADS_BLOCKSIZE + cfg.ADS_BLOCKSIZE := by
        ring
      omega
    rw [e, memcpy_inside _ _ _ _ _ _ hlt, Nat.zero_add]
    rfl

/-! ## Start and stop -/

/-- C12 (amended): `ads_start` returns 1 if and only if the device is open or can
be opened and the 5-byte `"start"` token was fully accepted (the write returned 5),
and `ads_stop` returns 1 if and only if the same holds for the 4-byte `"stop"`
token; when the device cannot be opened no write is issued and the result is -1,
which is not zero; in every other case the result is 0. -/
theorem control_token_result (device_fd open_result write_result : Int) :
    ((ads_start device_fd open_result write_result).ret = 1 ↔
        ((ads_start device_fd open_result write_result).writes = [⟨"start", 5⟩]
          ∧ write_result = 5))
    ∧ ((ads_stop device_fd open_result write_result).ret = 1 ↔
        ((ads_stop device_fd open_result write_result).writes = [⟨"stop", 4⟩]
          ∧ write_result = 4))
    ∧ ((device_fd = 0 ∧ open_result < 0) ↔
        (ads_start device_fd open_result write_result).ret = -1)
    ∧ ((device_fd = 0 ∧ open_result < 0) ↔
        (ads_stop device_fd open_result write_result).ret = -1)
    ∧ ((device_fd = 0 ∧ open_result < 0) →
        (ads_start device_fd open_result write_result).writes = []
        ∧ (ads_stop device_fd open_result write_result).writes = [])
    ∧ ((ads_start device_fd open_result write_result).ret = 1
        ∨ (ads_start device_fd open_result write_result).ret = 0
        ∨ (ads_start device_fd open_result write_result).ret = -1)
    ∧ ((ads_stop device_fd open_result write_result).ret = 1
        ∨ (ads_stop device_fd open_result write_result).ret = 0
        ∨ (ads_stop device_fd open_result write_result).ret = -1) := by
  unfold ads_start ads_stop
  simp only []
  by_cases h0 : device_fd = 0
  · by_cases ho : open_result < 0
    · simp [h0, ho]
    · by_cases h5 : 5 = write_result <;> by_cases h4 : 4 = write_result <;>
        simp [h0, ho, h5, h4] <;> omega
  · by_cases h5 : 5 = write_result <;> by_cases h4 : 4 = write_result <;>
      simp [h0, h5, h4] <;> omega

/-- C12 is false as stated: when the device cannot be opened `ads_start` and
`ads_stop` issue no write and return -1, a non-zero value. -/
theorem control_token_result_counterexample :
    (ads_start 0 (-1) 5).writes = [] ∧ (ads_start 0 (-1) 5).ret = -1
    ∧ (ads_start 0 (-1) 5).ret ≠ 0
    ∧ (ads_stop 0 (-1) 4).writes = [] ∧ (ads_stop 0 (-1) 4).ret = -1
    ∧ (ads_stop 0 (-1) 4).ret ≠ 0 := by
  decide

/-- C13: with the device handle open or openable, `ads_start` returns 1 exactly
when the write returns 5 and 0 for every other write result, and `ads_stop`
returns 1 exactly when the write returns 4 and 0 otherwise. -/
theorem partial_token_is_failure (device_fd open_result write_result : Int)
    (hdev : device_fd ≠ 0 ∨ 0 ≤ open_result) :
    ((ads_start device_fd open_result write_result).ret = 1 ↔ write_result = 5)
    ∧ (write_result ≠ 5 → (ads_start device_fd open_result write_result).ret = 0)
    ∧ ((ads_stop device_fd open_result write_result).ret = 1 ↔ write_result = 4)
    ∧ (write_result ≠ 4 → (ads_stop device_fd open_result write_result).ret = 0) := by
  have hcond : ¬ ((if device_fd = 0 then 1 else 0) = 1
      ∧ (if device_fd = 0 then open_result else device_fd) < 0) := by
    intro hc
    by_cases h0 : device_fd = 0
    · rw [if_pos h0] at hc
      omega
    · have := hc.1
      rw [if_neg h0] at this
      omega
  unfold ads_start ads_stop
  simp only [if_neg hcond]
  by_cases h5 : 5 = write_result <;> by_cases h4 : 4 = write_result <;>
    simp [h5, h4] <;> omega

theorem partial_token_is_failure_witness :
    (ads_start 3 0 3).ret = 0 ∧ (ads_start 3 0 5).ret = 1
    ∧ (ads_stop 0 3 0).ret = 0 ∧ (ads_stop 0 3 4).ret = 1 :=
  have h1 := partial_token_is_failure 3 0 3 (Or.inl (by decide))
  have h2 := partial_token_is_failure 3 0 5 (Or.inl (by decide))
  have h3 := partial_token_is_failure 0 3 0 (Or.inr (by decide))
  have h4 := partial_token_is_failure 0 3 4 (Or.inr (by decide))
  ⟨h1.2.1 (by decide), h2.1.mpr rfl, h3.2.2.2 (by decide), h4.2.2.1.mpr rfl⟩

/-! ## The device handle -/

theorem read_loop_total (cfg : Config) (driver : Nat → DriverRead) (num_blocks : Int)
    (blocks : Mem) : ∃ x, read_loop cfg driver num_blocks 2 0 0 [] blocks = some x := by
  by_cases hn : 1 ≤ num_blocks
  · have e : num_blocks = (num_blocks.toNat : Int) := by omega
    have hn' : 1 ≤ num_blocks.toNat := by omega
    rw [e]
    generalize num_blocks.toNat = n at hn'
    have hcond : ∀ r : Int, r < 2 → (r < 2 ∧ (0 : Int) < n) :=
      fun r hr => ⟨hr, by exact_mod_cast hn'⟩
    have step : ∀ (fuel : Nat) (r : Int) (log : List ReadCall) (b : Mem), r < 2 →
        (∃ x, read_loop cfg driver n (fuel + 1) r 0 log b = some x)
        ∨ ∃ log' b', read_loop cfg driver n (fuel + 1) r 0 log b
            = read_loop cfg driver n fuel (r + 1) 0 log' b' := by
      intro fuel r log b hr
      by_cases h0 : (driver log.length).len = 0
      · right
        rw [read_loop, if_pos (hcond r hr)]
        simp only []
        rw [if_pos h0]
        exact ⟨_, _, rfl⟩
      · left
        by_cases hneg : (driver log.length).len < 0
        · rw [read_loop, if_pos (hcond r hr)]
          simp only []
          rw [if_neg h0, if_pos hneg]
          exact ⟨_, rfl⟩
        · by_cases hE : (driver log.length).len
              ≠ (n : Int) * cfg.ADS_BLOCKSIZE + (n : Int) * 8
          · rw [read_loop, if_pos (hcond r hr)]
            simp only []
            rw [if_neg h0, if_neg hneg, if_pos hE]
            exact ⟨_, rfl⟩
          · exact ⟨_, read_loop_success cfg driver n hn' fuel r hr log b (not_not.mp hE)⟩
    rcases step 1 0 [] blocks (by omega) with h | ⟨log', b', h⟩
    · exact h
    · rw [h]
      rcases step 0 (0 + 1) log' b' (by omega) with h' | ⟨log'', b'', h'⟩
      · exact h'
      · rw [h', read_loop_exit _ _ _ _ _ _ _ _ (by omega)]
        exact ⟨_, rfl⟩
  · rw [read_loop_exit _ _ _ _ _ _ _ _ (by omega)]
    exact ⟨_, rfl⟩

/-- What `ads_read` does with the device handle, whatever the driver answers. -/
theorem ads_read_device (cfg : Config) (device_fd open_result : Int)
    (driver : Nat → DriverRead) (blocks : Mem) (num_blocks : Int) :
    ∃ res, ads_read cfg device_fd open_result driver blocks num_blocks = some res
      ∧ res.opens = (if device_fd = 0 then 1 else 0)
      ∧ (device_fd ≠ 0 → res.device_fd = device_fd)
      ∧ (device_fd = 0 → 0 ≤ open_result → res.device_fd = open_result)
      ∧ (device_fd = 0 → open_result < 0 →
          res.ret = -1 ∧ res.device_fd = 0 ∧ res.reads = []) := by
  obtain ⟨x, hx⟩ := read_loop_total cfg driver num_blocks blocks
  by_cases hfail : device_fd = 0 ∧ open_result < 0
  · refine ⟨⟨-1, 0, blocks, 1, []⟩, ?_, ?_, ?_, ?_, ?_⟩
    · unfold ads_read
      simp only []
      rw [if_pos hfail.1, if_pos hfail.1, if_pos ⟨rfl, hfail.2⟩]
    · rw [if_pos hfail.1]
    · intro h; exact absurd hfail.1 h
    · intro _ h; omega
    · intro _ _; exact ⟨rfl, rfl, rfl⟩
  · have hcond : ¬ ((if device_fd = 0 then 1 else 0) = 1
        ∧ (if device_fd = 0 then open_result else device_fd) < 0) := by
      intro hc
      by_cases h0 : device_fd = 0
      · rw [if_pos h0, if_pos h0] at hc
        exact hfail ⟨h0, hc.2⟩
      · have := hc.1
        rw [if_neg h0] at this
        omega
    unfold ads_read
    simp only []
    rw [if_neg hcond, hx]
    refine ⟨_, rfl, rfl, ?_, ?_, ?_⟩
    · intro h
      show (if device_fd = 0 then open_result else device_fd) = device_fd
      rw [if_neg h]
    · intro h _
      show (if device_fd = 0 then open_result else device_fd) = open_result
      rw [if_pos h]
    · intro h1 h2
      exact absurd ⟨h1, h2⟩ hfail

/-- What one call on the device does with the handle. -/
theorem dev_call_spec (cfg : Config) (device_fd : Int) (c : DevCall) :
    ∃ st, dev_call cfg device_fd c = some st
      ∧ st.fd_before = device_fd
      ∧ st.opens = (if device_fd = 0 then 1 else 0)
      ∧ (device_fd ≠ 0 → st.fd_after = device_fd)
      ∧ (device_fd = 0 → 0 ≤ c.open_result → st.fd_after = c.open_result)
      ∧ (device_fd = 0 → c.open_result < 0 →
          st.ret = -1 ∧ st.fd_after = 0 ∧ st.transfers = 0) := by
  cases c with
  | start o w =>
    refine ⟨_, rfl, rfl, ?_, ?_, ?_, ?_⟩
    · show (ads_start device_fd o w).opens = _
      unfold ads_start
      simp only []
      split_ifs <;> rfl
    · intro h
      show (ads_start device_fd o w).device_fd = _
      unfold ads_start
      simp [h]
    · intro h ho
      show (ads_start device_fd o w).device_fd = o
      have ho' : ¬ o < 0 := not_lt.mpr ho
      unfold ads_start
      simp [h, ho']
    · intro h ho
      show (ads_start device_fd o w).ret = -1 ∧ (ads_start device_fd o w).device_fd = 0
        ∧ (ads_start device_fd o w).writes.length = 0
      have ho' : o < 0 := ho
      unfold ads_start
      simp [h, ho']
  | stop o w =>
    refine ⟨_, rfl, rfl, ?_, ?_, ?_, ?_⟩
    · show (ads_stop device_fd o w).opens = _
      unfold ads_stop
      simp only []
      split_ifs <;> rfl
    · intro h
      show (ads_stop device_fd o w).device_fd = _
      unfold ads_stop
      simp [h]
    · intro h ho
      show (ads_stop device_fd o w).device_fd = o
      have ho' : ¬ o < 0 := not_lt.mpr ho
      unfold ads_stop
      simp [h, ho']
    · intro h ho
      show (ads_stop device_fd o w).ret = -1 ∧ (ads_stop device_fd o w).device_fd = 0
        ∧ (ads_stop device_fd o w).writes.length = 0
      have ho' : o < 0 := ho
      unfold ads_stop
      simp [h, ho']
  | read o driver blocks n =>
    obtain ⟨res, h1, h2, h3, h4, h5⟩ := ads_read_device cfg device_fd o driver blocks n
    refine ⟨⟨device_fd, res.ret, res.device_fd, res.opens, res.reads.length⟩, ?_, rfl, h2,
      h3, h4, ?_⟩
    · unfold dev_call
      simp only []
      rw [h1]
    · intro a b
      obtain ⟨c1, c2, c3⟩ := h5 a b
      exact ⟨c1, c2, by show res.reads.length = 0; rw [c3]; rfl⟩

theorem dev_seq_spec (cfg : Config) : ∀ (calls : List DevCall) (fd0 : Int),
    ∃ steps, dev_seq cfg fd0 calls = some steps
      ∧ steps.length = calls.length
      ∧ (∀ st : DevStep, steps[0]? = some st → st.fd_before = fd0)
      ∧ (∀ (j : Nat) (c : DevCall) (st : DevStep), calls[j]? = some c → steps[j]? = some st →
          st.opens = (if st.fd_before = 0 then 1 else 0)
          ∧ (st.fd_before ≠ 0 → st.fd_after = st.fd_before)
          ∧ (st.fd_before = 0 → 0 ≤ c.open_result → st.fd_after = c.open_result)
          ∧ (st.fd_before = 0 → c.open_result < 0 →
              st.ret = -1 ∧ st.fd_after = 0 ∧ st.transfers = 0))
      ∧ (∀ (j : Nat) (st st' : DevStep), steps[j]? = some st → steps[j + 1]? = some st' →
          st'.fd_before = st.fd_after)
      ∧ (fd0 ≠ 0 → ∀ (j : Nat) (st : DevStep), steps[j]? = some st →
          st.opens = 0 ∧ st.fd_before = fd0 ∧ st.fd_after = fd0)
      ∧ (0 ≤ fd0 → ∀ (j : Nat) (st : DevStep), steps[j]? = some st → 0 ≤ st.fd_after)
      ∧ (∀ (j k : Nat) (st st' : DevStep), j < k → steps[j]? = some st → steps[k]? = some st' →
          st.fd_after ≠ 0 →
          st'.opens = 0 ∧ st'.fd_before = st.fd_after ∧ st'.fd_after = st.fd_after) := by
  intro calls
  induction calls with
  | nil =>
    intro fd0
    refine ⟨[], rfl, rfl, ?_, ?_, ?_, ?_, ?_, ?_⟩ <;> intros <;> simp at *
  | cons c rest ih =>
    intro fd0
    obtain ⟨st, h1, h2, h3, h4, h5, h6⟩ := dev_call_spec cfg fd0 c
    obtain ⟨steps, g1, g2, g3, g4, g5, g6, g7, g8⟩ := ih st.fd_after
    have hnonneg : 0 ≤ fd0 → 0 ≤ st.fd_after := by
      intro h0
      by_cases hz : fd0 = 0
      · by_cases ho : c.open_result < 0
        · rw [(h6 hz ho).2.1]
        · rw [h5 hz (by omega)]; omega
      · rw [h4 hz]; exact h0
    refine ⟨st :: steps, ?_, by simp [g2], ?_, ?_, ?_, ?_, ?_, ?_⟩
    · rw [dev_seq, h1]
      simp only []
      rw [g1]
    · intro st' hs
      simp at hs
      rw [← hs]; exact h2
    · intro j c' st' hc hs
      cases j with
      | zero =>
        simp at hc hs
        subst hc hs
        rw [h2]
        exact ⟨h3, h4, h5, h6⟩
      | succ j =>
        simp at hc hs
        exact g4 j c' st' hc hs
    · intro j st1 st2 hs1 hs2
      cases j with
      | zero =>
        simp at hs1 hs2
        subst hs1
        exact g3 st2 hs2
      | succ j =>
        simp at hs1 hs2
        exact g5 j st1 st2 hs1 hs2
    · intro hz j st' hs
      cases j with
      | zero =>
        simp at hs
        subst hs
        refine ⟨?_, h2, h4 hz⟩
        rw [h3, if_neg hz]
      | succ j =>
        simp at hs
        have hz' : st.fd_after ≠ 0 := by rw [h4 hz]; exact hz
        obtain ⟨a1, a2, a3⟩ := g6 hz' j st' hs
        exact ⟨a1, by rw [a2, h4 hz], by rw [a3, h4 hz]⟩
    · intro h0 j st' hs
      cases j with
      | zero =>
        simp at hs
        subst hs
        exact hnonneg h0
      | succ j =>
        simp at hs
        exact g7 (hnonneg h0) j st' hs
    · intro j k st1 st2 hjk hs1 hs2 hne
      cases k with
      | zero => omega
      | succ k =>
        simp at hs2
        cases j with
        | zero =>
          simp at hs1
          subst hs1
          exact g6 hne k st2 hs2
        | succ j =>
          simp at hs1
          exact g8 j k st1 st2 (by omega) hs1 hs2 hne

/-- C14 (amended): over every sequence of `ads_start`, `ads_stop` and `ads_read`
calls from program start and every sequence of open outcomes, the device is opened
exactly in the calls that find the handle unset (0); once a call has left a
non-zero handle every later call reuses it and never opens again (an open that
returns descriptor 0 leaves the handle unset); after a failed open the handle is
unset (0), the failing call returns -1 without a write or a read, and the next
call attempts the open again; the handle is never negative. -/
theorem device_handle_lifecycle (cfg : Config) (calls : List DevCall) :
    ∃ steps, dev_seq cfg 0 calls = some steps
      ∧ steps.length = calls.length
      ∧ (∀ (j : Nat) (st : DevStep), steps[j]? = some st →
          (st.opens = 1 ↔ st.fd_before = 0) ∧ (st.opens = 0 ↔ st.fd_before ≠ 0)
          ∧ 0 ≤ st.fd_after)
      ∧ (∀ (j k : Nat) (st st' : DevStep), j < k → steps[j]? = some st → steps[k]? = some st' →
          st.fd_after ≠ 0 →
          st'.opens = 0 ∧ st'.fd_before = st.fd_after ∧ st'.fd_after = st.fd_after)
      ∧ (∀ (j : Nat) (c : DevCall) (st : DevStep), calls[j]? = some c → steps[j]? = some st →
          st.fd_before = 0 → c.open_result < 0 →
          st.ret = -1 ∧ st.fd_after = 0 ∧ st.transfers = 0
          ∧ ∀ st' : DevStep, steps[j + 1]? = some st' → st'.fd_before = 0 ∧ st'.opens = 1)
      ∧ (∀ (j : Nat) (c : DevCall) (st : DevStep), calls[j]? = some c → steps[j]? = some st →
          st.fd_before = 0 → 0 ≤ c.open_result → st.fd_after = c.open_result) := by
  obtain ⟨steps, g1, g2, _, g4, g5, _, g7, g8⟩ := dev_seq_spec cfg calls 0
  have hcall : ∀ (j : Nat) (st : DevStep), steps[j]? = some st → ∃ c, calls[j]? = some c := by
    intro j st hs
    have hlt : j < calls.length := by
      rw [← g2]
      exact (List.getElem?_eq_some.mp hs).1
    exact ⟨calls[j], List.getElem?_eq_some.mpr ⟨hlt, rfl⟩⟩
  refine ⟨steps, g1, g2, ?_, g8, ?_, ?_⟩
  · intro j st hs
    obtain ⟨c, hc⟩ := hcall j st hs
    obtain ⟨a1, _⟩ := g4 j c st hc hs
    refine ⟨?_, ?_, g7 (le_refl 0) j st hs⟩
    · rw [a1]; split_ifs with h <;> simp [h]
    · rw [a1]; split_ifs with h <;> simp [h]
  · intro j c st hc hs hz ho
    obtain ⟨_, _, _, a4⟩ := g4 j c st hc hs
    obtain ⟨b1, b2, b3⟩ := a4 hz ho
    refine ⟨b1, b2, b3, ?_⟩
    intro st' hs'
    have hb : st'.fd_before = 0 := by rw [g5 j st st' hs hs', b2]
    obtain ⟨c', hc'⟩ := hcall (j + 1) st' hs'
    obtain ⟨a1, _⟩ := g4 (j + 1) c' st' hc' hs'
    exact ⟨hb, by rw [a1, if_pos hb]⟩
  · intro j c st hc hs hz ho
    exact (g4 j c st hc hs).2.2.1 hz ho

/-- C14 is false as stated: from program start an `ads_start` whose open returns
descriptor 0 succeeds (the write is issued, the result is 1) and leaves the handle
0, and the next call opens the device again. -/
theorem device_handle_lifecycle_counterexample :
    dev_seq sampleConfig 0 [.start 0 5, .start 7 5]
      = some [⟨0, 1, 0, 1, 1⟩, ⟨0, 1, 7, 1, 1⟩] := by
  decide

/-! ## The footprint of the live read -/

/-- With a block size that is a multiple of 8, a header of `MAX_TIMESTAMPS`
timestamps ends beyond block 0, whatever the widths of `magic` and `num_blocks`. -/
theorem header_end_at_max (cfg : Config) (hwf : cfg.WF) (h8 : 8 ∣ cfg.ADS_BLOCKSIZE) :
    cfg.ADS_BLOCKSIZE < cfg.timestamps_off + 8 * cfg.MAX_TIMESTAMPS := by
  have h1 := hwf.count_second
  have h2 : 1 ≤ cfg.num_blocks_size := by
    by_contra hc
    have h0 : cfg.num_blocks_size = 0 := by omega
    have := hwf.count_fits
    rw [h0] at this
    norm_num at this
  unfold Config.MAX_TIMESTAMPS
  rw [Nat.mul_div_cancel' h8]
  omega

/-- C16 fails on the code: with 4096-byte blocks and `magic`, `num_blocks` and
`timestamps` at offsets 0, 4 and 8, a read of `ADS_BLOCKSIZE / 8 = 512` blocks
writes a header of `8 + 8 * 512 = 4104` bytes: `timestamps[511]` lies at offset
4096, the first 8 bytes of data block 1, which then hold `511 * 32000` and not the
recording. -/
theorem header_overflows_block_0 :
    (512 : Nat) ≤ sampleConfig.ADS_BLOCKSIZE / 8
    ∧ sampleConfig.timestamps_off + 8 * 512 = sampleConfig.ADS_BLOCKSIZE + 8
    ∧ sampleConfig.timestamps_off + 8 * 511 = 1 * sampleConfig.ADS_BLOCKSIZE
    ∧ ∃ res, ads_read_file sampleConfig sampleLoaded sampleFile (some "rec.bin") zeroMem 512
          = some res
        ∧ res.ret = 512 + 1
        ∧ header_timestamp sampleConfig res.blocks 511 = 511 * 32000
        ∧ (∀ j, j < 8 → res.blocks (1 * sampleConfig.ADS_BLOCKSIZE + j)
            = byteLE (511 * 32000) j)
        ∧ res.blocks (1 * sampleConfig.ADS_BLOCKSIZE + 2) = 249
        ∧ sampleBytes (0 * sampleConfig.ADS_BLOCKSIZE + 2) = 2 := by
  refine ⟨by decide, by decide, by decide, ?_⟩
  have hinit := ready_init_file sampleConfig sampleLoaded sampleFile "rec.bin" _ 40 0
    sampleLoaded_filename sampleLoaded_ready
  have hret : ¬ (ads_init_file sampleConfig sampleLoaded sampleFile "rec.bin").ret < 0 := by
    rw [hinit]; simp
  have hready : Ready sampleConfig
      (ads_init_file sampleConfig sampleLoaded sampleFile "rec.bin").state
      ⟨163840, sampleBytes⟩ 40 0 := by
    rw [hinit]; exact sampleLoaded_ready
  obtain ⟨res, h1, h2, _, _, _, _, _, _, _, _, h11, _, _, h14⟩ :=
    ads_read_file_ready sampleConfig sampleConfig_wf sampleLoaded sampleFile "rec.bin" zeroMem
      512 _ 40 0 (by decide) hret hready (by decide)
  rw [hinit] at h11 h14
  have hb : ∀ j, j < 8 → res.blocks (1 * sampleConfig.ADS_BLOCKSIZE + j)
      = byteLE (511 * 32000) j := by
    intro j hj
    have h := h14 511 j (by decide) hj
    have e : sampleConfig.timestamps_off + 8 * 511 = 1 * sampleConfig.ADS_BLOCKSIZE := by
      decide
    rw [e] at h
    rw [h]
    rfl
  refine ⟨res, h1, h2, ?_, hb, ?_, by decide⟩
  · rw [h11 511 (by decide)]
    decide
  · rw [hb 2 (by decide)]
    decide

/-! ## A wrap of the cursor -/

/-- C17 (amended): when an `ads_read_file` call ends exactly at the end of the
recording the copy loop itself wraps the cursor to 0, which is below the block
count, so the re-load-suppression check still succeeds for the same identity: the
next `ads_read_file` with the same filename makes no file-system call, keeps the
recording and continues the timestamps from the last timestamp without resetting
it. -/
theorem wrap_keeps_recording (cfg : Config) (hwf : cfg.WF) (s : SimState) (env : FileOutcome)
    (filename : String) (blocks : Mem) (r : Recording) (T p n : Nat)
    (hfn : filename ≠ "") (hload : s.loaded_filename = some filename)
    (hready : Ready cfg s r T p) (hn1 : 1 ≤ n) (hn2 : n ≤ cfg.MAX_TIMESTAMPS)
    (hwrap : (p + n) % T = 0) :
    ∃ res, ads_read_file cfg s env (some filename) blocks n = some res
      ∧ res.ret = (n : Int) + 1
      ∧ res.state.data_block_pos = 0
      ∧ ads_file_loaded res.state filename = 1
      ∧ res.state.data_last_timestamp = (s.data_last_timestamp + n * SAMPLE_RATE_NS) % 2 ^ 64
      ∧ ∀ (env' : FileOutcome) (blocks' : Mem) (n' : Nat), n' ≤ cfg.MAX_TIMESTAMPS →
          ∃ res', ads_read_file cfg res.state env' (some filename) blocks' n' = some res'
            ∧ res'.ret = (n' : Int) + 1
            ∧ res'.io = []
            ∧ res'.state.file_data = some r
            ∧ (1 ≤ n' → header_timestamp cfg res'.blocks 0
                = (s.data_last_timestamp + n * SAMPLE_RATE_NS) % 2 ^ 64) := by
  have hinit := ready_init_file cfg s env filename r T p hload hready
  have hret : ¬ (ads_init_file cfg s env filename).ret < 0 := by rw [hinit]; simp
  have hready' : Ready cfg (ads_init_file cfg s env filename).state r T p := by
    rw [hinit]; exact hready
  obtain ⟨res, h1, h2, _, h4, h5, h6, h7, h8, _⟩ :=
    ads_read_file_ready cfg hwf s env filename blocks n r T p hfn hret hready' hn2
  rw [hinit] at h5 h8
  simp only [] at h5 h8
  rw [if_neg (by omega)] at h8
  rw [hwrap] at h7
  have hT : 0 < T := by have := hready.2.2.2.1; omega
  have hname : res.state.loaded_filename = some filename := h5.trans hload
  have hready2 : Ready cfg res.state r T 0 := ⟨h4, h6, h7, hT, hready.2.2.2.2⟩
  refine ⟨res, h1, h2, h7, ?_, h8, ?_⟩
  · unfold ads_file_loaded
    rw [if_pos]
    refine ⟨hname, ?_, ?_⟩
    · rw [h6]; exact_mod_cast hT
    · rw [h6, h7]; exact_mod_cast hT
  · intro env' blocks' n' hn'
    have hinit2 := ready_init_file cfg res.state env' filename r T 0 hname hready2
    have hret2 : ¬ (ads_init_file cfg res.state env' filename).ret < 0 := by
      rw [hinit2]; simp
    have hready2' : Ready cfg (ads_init_file cfg res.state env' filename).state r T 0 := by
      rw [hinit2]; exact hready2
    obtain ⟨res', g1, g2, g3, g4, _, _, _, _, _, _, g11, _⟩ :=
      ads_read_file_ready cfg hwf res.state env' filename blocks' n' r T 0 hfn hret2 hready2'
        hn'
    rw [hinit2] at g3 g11
    simp only [] at g3 g11
    refine ⟨res', g1, g2, g3, g4, ?_⟩
    intro h1'
    rw [g11 0 (by omega), h8, Nat.zero_mul, Nat.add_zero, Nat.mod_mod]

/-- C17 is false as stated: a read of 40 blocks from the loaded 40-block recording
leaves the cursor at 0; the next read with the same filename, on a file system where
the file has gone, still succeeds without a file-system call and its first
timestamp is `40 * 32000`, not 0. -/
theorem wrap_keeps_recording_counterexample :
    (ads_read_file sampleConfig sampleLoaded sampleFile (some "rec.bin") zeroMem 40).map
        (fun r1 => (r1.ret, r1.state.data_block_pos)) = some (40 + 1, 0)
    ∧ ((ads_read_file sampleConfig sampleLoaded sampleFile (some "rec.bin") zeroMem 40).bind
        (fun r1 => ads_read_file sampleConfig r1.state missingFile (some "rec.bin")
          zeroMem 5)).map
        (fun r2 => (r2.ret, r2.io, header_timestamp sampleConfig r2.blocks 0))
      = some (5 + 1, [], 40 * 32000) := by
  constructor <;> decide

theorem wrap_keeps_recording_witness :
    ∃ res, ads_read_file sampleConfig sampleLoaded sampleFile (some "rec.bin") zeroMem 40
        = some res
      ∧ res.state.data_block_pos = 0
      ∧ ads_file_loaded res.state "rec.bin" = 1
      ∧ ∃ res', ads_read_file sampleConfig res.state missingFile (some "rec.bin") zeroMem 5
          = some res'
        ∧ res'.io = []
        ∧ header_timestamp sampleConfig res'.blocks 0 = 40 * 32000 := by
  obtain ⟨res, h1, _, h3, h4, _, h6⟩ :=
    wrap_keeps_recording sampleConfig sampleConfig_wf sampleLoaded sampleFile "rec.bin"
      zeroMem ⟨163840, sampleBytes⟩ 40 0 40 (by decide) sampleLoaded_filename
      sampleLoaded_ready (by decide) (by decide) (by decide)
  obtain ⟨res', g1, _, g3, _, g5⟩ := h6 missingFile zeroMem 5 (by decide)
  exact ⟨res, h1, h3, h4, res', g1, g3, g5 (by decide)⟩

/-! ## The copies of the copy loop -/

theorem copy_loop_log (cfg : Config) (r : Recording) (T n : Nat)
    (hsize : T * cfg.ADS_BLOCKSIZE ≤ r.size) :
    ∀ (fuel c p : Nat) (blocks : Mem) (log : List Copy), c ≤ n → p < T → n - c ≤ fuel →
      ∃ pos blocks' ext,
        copy_loop cfg (some r) T n fuel c p blocks log = some (pos, blocks', log ++ ext)
        ∧ ext.length ≤ n - c
        ∧ (∀ x, x ∈ ext →
            cfg.ADS_BLOCKSIZE ≤ x.len
            ∧ (c + 1) * cfg.ADS_BLOCKSIZE ≤ x.dst
            ∧ x.dst + x.len ≤ (n + 1) * cfg.ADS_BLOCKSIZE
            ∧ x.src + x.len ≤ T * cfg.ADS_BLOCKSIZE)
        ∧ (n - c ≤ T - p → ext.length ≤ 1)
        ∧ (n - c ≤ T → ext.length ≤ 2) := by
  intro fuel
  induction fuel with
  | zero =>
    intro c p blocks log hc hp hf
    have hcn : c = n := by omega
    subst hcn
    refine ⟨p, blocks, [], ?_, by simp, by simp, by simp, by simp⟩
    rw [copy_loop_done _ _ _ _ _ _ _ _ _ (by simp), List.append_nil]
  | succ fuel ih =>
    intro c p blocks log hc hp hf
    by_cases hcn : c < n
    · rw [copy_loop_step cfg r T n fuel c p blocks log hcn hp hsize]
      have hm1 : 1 ≤ min (T - p) (n - c) := by omega
      have hm2 : min (T - p) (n - c) ≤ T - p := Nat.min_le_left _ _
      have hm3 : min (T - p) (n - c) ≤ n - c := Nat.min_le_right _ _
      have hm4 : min (T - p) (n - c) = T - p ∨ min (T - p) (n - c) = n - c := by omega
      generalize min (T - p) (n - c) = m at hm1 hm2 hm3 hm4
      have hT : 0 < T := by omega
      obtain ⟨pos, blocks', ext, h1, h2, h3, h4, h5⟩ :=
        ih (c + m) ((p + m) % T)
          (memcpy blocks ((c + 1) * cfg.ADS_BLOCKSIZE) r.bytes (p * cfg.ADS_BLOCKSIZE)
            (m * cfg.ADS_BLOCKSIZE))
          (log ++ [⟨(c + 1) * cfg.ADS_BLOCKSIZE, p * cfg.ADS_BLOCKSIZE,
                    m * cfg.ADS_BLOCKSIZE⟩])
          (by omega) (Nat.mod_lt _ hT) (by omega)
      refine ⟨pos, blocks', (⟨(c + 1) * cfg.ADS_BLOCKSIZE, p * cfg.ADS_BLOCKSIZE,
        m * cfg.ADS_BLOCKSIZE⟩ : Copy) :: ext, ?_, ?_, ?_, ?_, ?_⟩
      · rw [h1]
        simp
      · simp only [List.length_cons]
        omega
      · intro x hx
        simp only [List.mem_cons] at hx
        rcases hx with hx | hx
        · subst hx
          simp only []
          refine ⟨?_, le_refl _, ?_, ?_⟩
          · have := Nat.mul_le_mul_right cfg.ADS_BLOCKSIZE hm1
            omega
          · have : (c + 1 + m) * cfg.ADS_BLOCKSIZE ≤ (n + 1) * cfg.ADS_BLOCKSIZE :=
              Nat.mul_le_mul_right _ (by omega)
            have e : (c + 1 + m) * cfg.ADS_BLOCKSIZE
                = (c + 1) * cfg.ADS_BLOCKSIZE + m * cfg.ADS_BLOCKSIZE := by ring
            omega
          · have : (p + m) * cfg.ADS_BLOCKSIZE ≤ T * cfg.ADS_BLOCKSIZE :=
              Nat.mul_le_mul_right _ (by omega)
            have e : (p + m) * cfg.ADS_BLOCKSIZE
                = p * cfg.ADS_BLOCKSIZE + m * cfg.ADS_BLOCKSIZE := by ring
            omega
        · obtain ⟨a1, a2, a3, a4⟩ := h3 x hx
          refine ⟨a1, ?_, a3, a4⟩
          have : (c + 1) * cfg.ADS_BLOCKSIZE ≤ (c + m + 1) * cfg.ADS_BLOCKSIZE :=
            Nat.mul_le_mul_right _ (by omega)
          omega
      · intro hle
        simp only [List.length_cons]
        have : m = n - c := by omega
        omega
      · intro hle
        simp only [List.length_cons]
        rcases hm4 with hm | hm
        · have hp0 : (p + m) % T = 0 := by
            have : p + m = T := by omega
            rw [this, Nat.mod_self]
          have := h4 (by rw [hp0]; omega)
          omega
        · omega
    · have hcn : c = n := by omega
      subst hcn
      refine ⟨p, blocks, [], ?_, by simp, by simp, by simp, by simp⟩
      rw [copy_loop_done _ _ _ _ _ _ _ _ _ (by simp), List.append_nil]

/-- C18: for every loaded recording of `T >= 1` blocks with the cursor below `T` and
every `num_blocks`, the copy loop of `ads_read_file` terminates (any fuel of at
least `num_blocks` iterations gives its result), each iteration copies at least one
block, there are at most `num_blocks` iterations, and at most two when
`num_blocks <= T`. -/
theorem copy_loop_terminates (cfg : Config) (hwf : cfg.WF) (r : Recording) (T p : Nat)
    (num_blocks : Int) (fuel : Nat) (blocks : Mem)
    (hp : p < T) (hsize : T * cfg.ADS_BLOCKSIZE ≤ r.size)
    (hfuel : num_blocks.toNat ≤ fuel) :
    ∃ pos blocks' copies,
      copy_loop cfg (some r) T num_blocks fuel 0 p blocks [] = some (pos, blocks', copies)
      ∧ copies.length ≤ num_blocks.toNat
      ∧ (∀ x, x ∈ copies → cfg.ADS_BLOCKSIZE ≤ x.len ∧ 0 < x.len)
      ∧ (num_blocks ≤ T → copies.length ≤ 2) := by
  by_cases hn : 0 ≤ num_blocks
  · have e : num_blocks = (num_blocks.toNat : Int) := by omega
    obtain ⟨pos, blocks', ext, h1, h2, h3, _, h5⟩ :=
      copy_loop_log cfg r T num_blocks.toNat hsize fuel 0 p blocks []
        (Nat.zero_le _) hp (by omega)
    rw [Nat.cast_zero, List.nil_append, ← e] at h1
    refine ⟨pos, blocks', ext, h1, by omega, ?_, ?_⟩
    · intro x hx
      have := (h3 x hx).1
      have := hwf.blocksize_pos
      exact ⟨by omega, by omega⟩
    · intro hle
      exact h5 (by omega)
  · refine ⟨p, blocks, [], ?_, by simp, by simp, by simp⟩
    rw [copy_loop_done _ _ _ _ _ _ _ _ _ (by omega)]

theorem copy_loop_terminates_witness :
    ∃ pos blocks' copies,
      copy_loop sampleConfig (some ⟨163840, sampleBytes⟩) 40 30 31 0 30 zeroMem []
        = some (pos, blocks', copies)
      ∧ copies.length ≤ 30
      ∧ (∀ x, x ∈ copies → 4096 ≤ x.len ∧ 0 < x.len)
      ∧ copies.length ≤ 2 := by
  obtain ⟨pos, blocks', copies, h1, h2, h3, h4⟩ :=
    copy_loop_terminates sampleConfig sampleConfig_wf ⟨163840, sampleBytes⟩ 40 30 30 31 zeroMem
      (by decide) (by decide) (by decide)
  exact ⟨pos, blocks', copies, h1, h2, h3, h4 (by decide)⟩

/-! ## Reachable states and bounds of the accesses -/

/-- C19: in every state reachable from program start by calls of `ads_init_file`
and `ads_read_file`, whatever the file system answers, either nothing is loaded
(no recording buffer, no filename, block count 0, cursor 0) or a recording is
loaded with a block count between 32 and 1000, a buffer of block count times
`ADS_BLOCKSIZE` bytes and the cursor at least 0 and below the block count. -/
theorem reachable_states_invariant (cfg : Config) (hwf : cfg.WF) (s : SimState)
    (hs : Reachable cfg s) :
    (s.file_data = none ∧ s.loaded_filename = none ∧ s.data_num_blocks = 0
      ∧ s.data_block_pos = 0)
    ∨ ∃ r, s.file_data = some r
        ∧ 32 ≤ s.data_num_blocks ∧ s.data_num_blocks ≤ 1000
        ∧ (r.size : Int) = s.data_num_blocks * cfg.ADS_BLOCKSIZE
        ∧ 0 ≤ s.data_block_pos ∧ s.data_block_pos < s.data_num_blocks := by
  rcases reachable_inv cfg hwf s hs with hu | ⟨r, T, p, ⟨h1, h2, h3, h4, h5⟩, hT1, hT2⟩
  · exact Or.inl hu
  · refine Or.inr ⟨r, h1, ?_, ?_, ?_, ?_, ?_⟩
    · rw [h2]; exact_mod_cast hT1
    · rw [h2]; exact_mod_cast hT2
    · rw [h2, h5]; push_cast; rfl
    · rw [h3]; positivity
    · rw [h2, h3]; exact_mod_cast h4

theorem reachable_states_invariant_witness :
    (sampleLoaded.file_data = none ∧ sampleLoaded.loaded_filename = none
      ∧ sampleLoaded.data_num_blocks = 0 ∧ sampleLoaded.data_block_pos = 0)
    ∨ ∃ r, sampleLoaded.file_data = some r
        ∧ 32 ≤ sampleLoaded.data_num_blocks ∧ sampleLoaded.data_num_blocks ≤ 1000
        ∧ (r.size : Int) = sampleLoaded.data_num_blocks * sampleConfig.ADS_BLOCKSIZE
        ∧ 0 ≤ sampleLoaded.data_block_pos
        ∧ sampleLoaded.data_block_pos < sampleLoaded.data_num_blocks :=
  reachable_states_invariant sampleConfig sampleConfig_wf sampleLoaded
    (Reachable.init_file SimState.init sampleFile "rec.bin" Reachable.start)

theorem ads_read_file_copies (cfg : Config) (s : SimState) (env : FileOutcome)
    (filename : String) (blocks : Mem) (n : Int) (res : ReadResult) (hfn : filename ≠ "")
    (hret : ¬ (ads_init_file cfg s env filename).ret < 0)
    (h : ads_read_file cfg s env (some filename) blocks n = some res)
    (x : Int × Mem × List Copy)
    (hx : copy_loop cfg (ads_init_file cfg s env filename).state.file_data
      (ads_init_file cfg s env filename).state.data_num_blocks n (n.toNat + 1) 0
      (ads_init_file cfg s env filename).state.data_block_pos blocks [] = some x) :
    res.copies = x.2.2
    ∧ ∃ y, timestamp_loop cfg n.toNat 0
        (ads_init_file cfg s env filename).state.data_timestamps
        (ads_init_file cfg s env filename).state.data_last_timestamp = some y := by
  unfold ads_read_file at h
  simp only [] at h
  rw [if_neg hfn, if_neg hret, hx] at h
  simp only [] at h
  cases h2 : timestamp_loop cfg n.toNat 0
      (ads_init_file cfg s env filename).state.data_timestamps
      (ads_init_file cfg s env filename).state.data_last_timestamp with
  | none => rw [h2] at h; simp at h
  | some y =>
    rw [h2] at h
    simp only [] at h
    cases h3 : write_header cfg x.2.1 n (u64_bytes y.1) 0 with
    | none => rw [h3] at h; simp at h
    | some b =>
      rw [h3] at h
      simp only [Option.some.injEq] at h
      subst h
      exact ⟨rfl, y, rfl⟩

/-- C20: for every loaded state with the cursor below the block count `T` and every
`num_blocks` from 0 to `ADS_BLOCKSIZE / 8`, `ads_read_file` with the loaded
identity runs without an access out of bounds: each copy of the copy loop reads
recording bytes below `T * ADS_BLOCKSIZE` and writes buffer bytes from
`ADS_BLOCKSIZE` up to `(1 + num_blocks) * ADS_BLOCKSIZE`, and every index used on
`data_timestamps` is below `MAX_TIMESTAMPS` (the timestamp loop, which stops at the
first index that is not, runs to its end); the header is written inside the
`(1 + num_blocks) * ADS_BLOCKSIZE` bytes of the buffer. -/
theorem read_file_accesses_in_bounds (cfg : Config) (hwf : cfg.WF) (s : SimState)
    (env : FileOutcome) (filename : String) (blocks : Mem) (r : Recording) (T p n : Nat)
    (hfn : filename ≠ "") (hload : s.loaded_filename = some filename)
    (hready : Ready cfg s r T p) (hn : n ≤ cfg.ADS_BLOCKSIZE / 8) :
    ∃ res, ads_read_file cfg s env (some filename) blocks n = some res
      ∧ res.ret = (n : Int) + 1
      ∧ (∀ x, x ∈ res.copies →
          x.src + x.len ≤ T * cfg.ADS_BLOCKSIZE
          ∧ x.src + x.len ≤ r.size
          ∧ cfg.ADS_BLOCKSIZE ≤ x.dst
          ∧ x.dst + x.len ≤ (1 + n) * cfg.ADS_BLOCKSIZE)
      ∧ (∃ y, timestamp_loop cfg n 0 s.data_timestamps s.data_last_timestamp = some y)
      ∧ (∀ i, i < n → i < cfg.MAX_TIMESTAMPS)
      ∧ 8 * n ≤ 8 * cfg.MAX_TIMESTAMPS
      ∧ cfg.timestamps_off + 8 * n ≤ (1 + n) * cfg.ADS_BLOCKSIZE := by
  have hinit := ready_init_file cfg s env filename r T p hload hready
  have hret : ¬ (ads_init_file cfg s env filename).ret < 0 := by rw [hinit]; simp
  have hready' : Ready cfg (ads_init_file cfg s env filename).state r T p := by
    rw [hinit]; exact hready
  obtain ⟨res, h1, h2, _⟩ :=
    ads_read_file_ready cfg hwf s env filename blocks n r T p hfn hret hready' hn
  obtain ⟨hfd, hT, hp, hpT, hsize⟩ := hready
  obtain ⟨pos, b, ext, g1, _, g3, _⟩ :=
    copy_loop_log cfg r T n (Nat.le_of_eq hsize.symm) (n + 1) 0 p blocks []
      (Nat.zero_le _) hpT (by omega)
  rw [Nat.cast_zero, List.nil_append] at g1
  have hx : copy_loop cfg (ads_init_file cfg s env filename).state.file_data
      (ads_init_file cfg s env filename).state.data_num_blocks n ((n : Int).toNat + 1) 0
      (ads_init_file cfg s env filename).state.data_block_pos blocks []
      = some (pos, b, ext) := by
    rw [hinit]
    simp only []
    rw [hfd, hT, hp, Int.toNat_natCast, g1]
  obtain ⟨c1, y, c2⟩ := ads_read_file_copies cfg s env filename blocks n res hfn hret h1 _ hx
  rw [hinit, Int.toNat_natCast] at c2
  refine ⟨res, h1, h2, ?_, ⟨y, c2⟩, ?_, ?_, ?_⟩
  · intro x hxm
    rw [c1] at hxm
    obtain ⟨_, a2, a3, a4⟩ := g3 x hxm
    refine ⟨a4, by omega, by omega, ?_⟩
    rw [Nat.add_comm 1 n]
    exact a3
  · intro i hi
    unfold Config.MAX_TIMESTAMPS
    omega
  · unfold Config.MAX_TIMESTAMPS
    omega
  · have hroom := hwf.header_room
    have e : (1 + n) * cfg.ADS_BLOCKSIZE = cfg.ADS_BLOCKSIZE + n * cfg.ADS_BLOCKSIZE := by
      ring
    have h8n : 8 * n ≤ n * cfg.ADS_BLOCKSIZE := by
      have := Nat.mul_le_mul_left n (by omega : 8 ≤ cfg.ADS_BLOCKSIZE)
      omega
    omega

theorem read_file_accesses_in_bounds_witness :
    ∃ res, ads_read_file sampleConfig sampleLoaded missingFile (some "rec.bin") zeroMem 512
        = some res
      ∧ res.ret = 512 + 1
      ∧ (∀ x, x ∈ res.copies →
          x.src + x.len ≤ 40 * 4096 ∧ 4096 ≤ x.dst ∧ x.dst + x.len ≤ (1 + 512) * 4096) := by
  obtain ⟨res, h1, h2, h3, _⟩ :=
    read_file_accesses_in_bounds sampleConfig sampleConfig_wf sampleLoaded missingFile
      "rec.bin" zeroMem ⟨163840, sampleBytes⟩ 40 0 512 (by decide) sampleLoaded_filename
      sampleLoaded_ready (by decide)
  refine ⟨res, h1, h2, ?_⟩
  intro x hx
  obtain ⟨a1, _, a3, a4⟩ := h3 x hx
  exact ⟨a1, a3, a4⟩

end Madasng
